import Mathlib

/-!
A Lean model of the speedrun timing core (`src/timing/timer/mod.rs`).

Durations (`TimeSpan`) and monotonic timestamps (`TimeStamp`) are modelled as
rationals. Each operation that samples the clock takes a single `now : ℚ`
parameter used for both the monotonic and the wall-clock sample, following the
design rule that the clock is sampled exactly once at the top of an operation;
the wall clock is modelled on the same timeline. Serialization of durations to
floating-point seconds and of wall-clock instants to ISO-8601 strings is
modelled as exact (the numeric payloads are kept as rationals), so the
`Time64`/`ADT` serializer types carry the same payloads as their internal
counterparts. Callback invocations performed by `save_state` are recorded in an
`events` log on the timer, one entry per invocation, carrying the `Action` tag
of the `TimerState` passed to the callback.
-/

set_option autoImplicit false

namespace LiveSplit

/-- The phase the timer is in (`TimerPhase` in the source). -/
inductive TimerPhase
  | NotRunning
  | Running
  | Paused
  | Ended
deriving DecidableEq, Repr

/-- The timing method (`TimingMethod` in the source). -/
inductive TimingMethod
  | RealTime
  | GameTime
deriving DecidableEq, Repr

/-- The action tag attached to a `TimerState` snapshot (`Action` in the source). -/
inductive Action
  | None
  | Start
  | Split
  | Skip
  | Undo
  | Reset
  | Pause
  | Resume
deriving DecidableEq, Repr

/-- `AtomicDateTime`: a wall-clock instant together with a `synced` flag. The
instant is modelled as a rational number of seconds on the global timeline. -/
structure AtomicDateTime where
  time : ℚ
  synced : Bool
deriving DecidableEq, Repr

/-- `AtomicDateTime - TimeSpan = AtomicDateTime` (keeps the `synced` flag). -/
def AtomicDateTime.subSpan (a : AtomicDateTime) (d : ℚ) : AtomicDateTime :=
  ⟨a.time - d, a.synced⟩

/-- `AtomicDateTime::now()` at global instant `now`; the platform reports the
wall clock as synced. -/
def utcNow (now : ℚ) : AtomicDateTime :=
  ⟨now, true⟩

/-- `Time`: a pair of optional signed durations (Real Time, Game Time). -/
structure Time where
  real_time : Option ℚ := none
  game_time : Option ℚ := none
deriving DecidableEq, Repr

/-- Modelled from the spec: `Time + Time` adds component-wise, a component of
the sum being present only when both operands have it (the `catch!` idiom used
throughout the source for optional arithmetic). `Time` itself lives outside
`src/`. -/
def Time.add (a b : Time) : Time :=
  ⟨a.real_time.bind fun x => b.real_time.map fun y => x + y,
   a.game_time.bind fun x => b.game_time.map fun y => x + y⟩

/-- Index a `Time` by a `TimingMethod` (the `Index` impl on `Time`). -/
def Time.get (t : Time) (m : TimingMethod) : Option ℚ :=
  match m with
  | .RealTime => t.real_time
  | .GameTime => t.game_time

/-- Modelled from the spec: a `Segment` (external `Run` service, §3) carries a
name, its split time for the current attempt, its best segment time, its
personal-best split time, the custom-variable snapshot copied onto it on split,
and its segment history. -/
structure Segment where
  name : String
  split_time : Time := {}
  best_segment_time : Time := {}
  personal_best_split_time : Time := {}
  vars : List (String × String) := []
  history : List Time := []
deriving DecidableEq, Repr

/-- `Segment::clear_split_info`: clears the split time recorded for the
current attempt. -/
def Segment.clear_split_info (s : Segment) : Segment :=
  { s with split_time := {} }

/-- `Segment::set_split_time`. -/
def Segment.set_split_time (s : Segment) (t : Time) : Segment :=
  { s with split_time := t }

/-- Modelled from the spec: the external `Run` store (§2 C2, §3) with its
ordered segments, comparison list (comparison names are unique, as comparisons
are keyed by name), start offset, metadata custom variables (name/value pairs),
attempt count and history, modification flag and run id. -/
structure Run where
  segments : List Segment
  comparisons : List String
  comparisons_nodup : comparisons.Nodup
  offset : ℚ
  custom_variables : List (String × String)
  attempt_count : ℕ
  attempt_history : List (Time × Option AtomicDateTime × Option AtomicDateTime × Option ℚ)
  has_been_modified : Bool
  run_id : String

/-- `Run::len()`: the number of segments. -/
def Run.len (r : Run) : ℕ :=
  r.segments.length

/-- `Run::mark_as_modified`. -/
def Run.mark_as_modified (r : Run) : Run :=
  { r with has_been_modified := true }

/-- Modelled from the spec: `Run::start_next_run` begins a new attempt in the
run store (bumps the attempt counter). -/
def Run.start_next_run (r : Run) : Run :=
  { r with attempt_count := r.attempt_count + 1 }

/-- Modelled from the spec: `Run::fix_splits` is a sanitization hook of the
external run store with no specified observable contract; modelled as
preserving the run. -/
def Run.fix_splits (r : Run) : Run :=
  r

/-- Modelled from the spec: `Run::regenerate_comparisons` recomputes generated
comparisons inside the external run store; its effect on the data the timer
observes is not specified, so it is modelled as preserving the run. -/
def Run.regenerate_comparisons (r : Run) : Run :=
  r

/-- Modelled from the spec: `Run::add_attempt` appends the finished attempt
(final time, start/end wall-clock markers, pause time) to the attempt
history. -/
def Run.add_attempt (r : Run) (time : Time) (started ended : Option AtomicDateTime)
    (pause_time : Option ℚ) : Run :=
  { r with attempt_history := r.attempt_history ++ [(time, started, ended, pause_time)] }

/-- Per-segment deltas of the current attempt: walks the first `i` segments
carrying the previous cumulative split time and appends the delta (per axis,
present only when both endpoints are) to each segment's history. -/
def segmentHistoryAux : Time → ℕ → List Segment → List Segment
  | _, _, [] => []
  | _, 0, l => l
  | prev, i + 1, s :: rest =>
    let delta : Time :=
      ⟨s.split_time.real_time.bind fun c => prev.real_time.map fun p => c - p,
       s.split_time.game_time.bind fun c => prev.game_time.map fun p => c - p⟩
    { s with history := s.history ++ [delta] } :: segmentHistoryAux s.split_time i rest

/-- Modelled from the spec: `Run::update_segment_history(index)` appends the
current attempt's per-segment deltas up to `index` (§4.3). -/
def Run.update_segment_history (r : Run) (i : ℕ) : Run :=
  { r with segments := segmentHistoryAux ⟨some 0, some 0⟩ i r.segments }

/-- Modelled from the spec: `Run::import_pb_into_segment_history` records the
stored personal-best splits into each segment's history before they are
overwritten. -/
def Run.import_pb_into_segment_history (r : Run) : Run :=
  { r with
    segments := r.segments.map fun s =>
      { s with history := s.history ++ [s.personal_best_split_time] } }

/-- Modelled from the spec: `Run::clear_run_id`. -/
def Run.clear_run_id (r : Run) : Run :=
  { r with run_id := "" }

/-- `comparison::personal_best::NAME`. -/
def personalBestName : String :=
  "Personal Best"

/-- The serializer's wall-clock type `ADT` (an ISO-8601 string plus `synced`
flag); the instant payload is modelled exactly as a rational. -/
structure ADT where
  time : ℚ
  synced : Bool
deriving DecidableEq, Repr

/-- `From<AtomicDateTime> for ADT` (ISO-8601 formatting, modelled exact). -/
def adtOfAtomic (a : AtomicDateTime) : ADT :=
  ⟨a.time, a.synced⟩

/-- `From<&ADT> for AtomicDateTime` (ISO-8601 parsing, modelled exact). -/
def atomicOfAdt (a : ADT) : AtomicDateTime :=
  ⟨a.time, a.synced⟩

/-- The serializer's `Time64`: per-axis optional durations as floating-point
seconds, modelled exactly as rationals. -/
structure Time64 where
  real_time : Option ℚ := none
  game_time : Option ℚ := none
deriving DecidableEq, Repr

/-- `From<Time> for Time64` (seconds conversion modelled exact). -/
def time64OfTime (t : Time) : Time64 :=
  ⟨t.real_time, t.game_time⟩

/-- `From<&Time64> for Time`. -/
def timeOfTime64 (t : Time64) : Time :=
  ⟨t.real_time, t.game_time⟩

/-- `format!("\x7b:?\x7d", phase)`: the textual name of a phase. -/
def phaseStr : TimerPhase → String
  | .NotRunning => "NotRunning"
  | .Running => "Running"
  | .Paused => "Paused"
  | .Ended => "Ended"

/-- `From<&str> for TimerPhase`; the source panics on an unknown name, which is
modelled by `none`. -/
def phaseOfStr (s : String) : Option TimerPhase :=
  if s = "NotRunning" then some .NotRunning
  else if s = "Running" then some .Running
  else if s = "Ended" then some .Ended
  else if s = "Paused" then some .Paused
  else none

/-- The serializable snapshot `TimerState`. -/
structure TimerState where
  splits : List Time64
  phase : String
  current_split_index : Option ℕ
  current_timing_method : TimingMethod
  current_comparison : String
  attempt_started : Option ADT
  attempt_ended : Option ADT
  time_paused_at : ℚ
  is_game_time_paused : Bool
  game_time_pause_time : Option ℚ
  loading_times : Option ℚ
  start_time_utc : ADT
  start_time_with_offset_utc : ADT
  adjusted_start_time_utc : ADT
  split_name : String
  action : Action
deriving DecidableEq, Repr

/-- The timer. The `events` field records, in order, the `Action` tags of the
snapshots passed to the change callback by `save_state`. -/
structure Timer where
  run : Run
  phase : TimerPhase
  current_split_index : Option ℕ
  current_timing_method : TimingMethod
  current_comparison : String
  attempt_started : Option AtomicDateTime
  attempt_ended : Option AtomicDateTime
  start_time : ℚ
  start_time_with_offset : ℚ
  adjusted_start_time : ℚ
  time_paused_at : ℚ
  is_game_time_paused : Bool
  game_time_pause_time : Option ℚ
  loading_times : Option ℚ
  start_time_utc : AtomicDateTime
  start_time_with_offset_utc : AtomicDateTime
  adjusted_start_time_utc : AtomicDateTime
  use_utc : Bool
  events : List Action

/-- `Timer::is_game_time_initialized`. -/
def Timer.is_game_time_initialized (t : Timer) : Bool :=
  t.loading_times.isSome

/-- `Timer::loading_times()` accessor (`unwrap_or_default`). -/
def Timer.loading_times_val (t : Timer) : ℚ :=
  t.loading_times.getD 0

/-- `Timer::current_split`. -/
def Timer.current_split (t : Timer) : Option Segment :=
  t.current_split_index.bind fun i => t.run.segments.get? i

/-- `Timer::current_time` at global instant `now`. The `Ended` arm reads the
last segment's split time (`last().unwrap()`, total here via `getLast?`). -/
def Timer.current_time (t : Timer) (now : ℚ) : Time :=
  let real_time : Option ℚ :=
    match t.phase with
    | .NotRunning => some t.run.offset
    | .Running => some (now - t.adjusted_start_time)
    | .Paused => some t.time_paused_at
    | .Ended => t.run.segments.getLast?.bind fun s => s.split_time.real_time
  let real_time_utc : Option ℚ :=
    match t.phase with
    | .NotRunning => some t.run.offset
    | .Running => some ((utcNow now).time - t.adjusted_start_time_utc.time)
    | .Paused => some t.time_paused_at
    | .Ended => t.run.segments.getLast?.bind fun s => s.split_time.real_time
  let game_time : Option ℚ :=
    match t.phase with
    | .NotRunning => some t.run.offset
    | .Ended => t.run.segments.getLast?.bind fun s => s.split_time.game_time
    | _ =>
      if t.is_game_time_paused then t.game_time_pause_time
      else if t.is_game_time_initialized then
        real_time.map fun r => r - t.loading_times_val
      else none
  ⟨if t.use_utc then real_time_utc else real_time, game_time⟩

/-- `From<&Timer> for TimerState` composed with the `action` override done by
`Timer::timer_state`. -/
def Timer.timer_state (t : Timer) (action : Action) : TimerState :=
  { splits := t.run.segments.map fun s => time64OfTime s.split_time
    phase := phaseStr t.phase
    current_split_index := t.current_split_index
    current_timing_method := t.current_timing_method
    current_comparison := t.current_comparison
    attempt_started := t.attempt_started.map adtOfAtomic
    attempt_ended := t.attempt_ended.map adtOfAtomic
    time_paused_at := t.time_paused_at
    is_game_time_paused := t.is_game_time_paused
    game_time_pause_time := t.game_time_pause_time
    loading_times := t.loading_times
    start_time_utc := adtOfAtomic t.start_time_utc
    start_time_with_offset_utc := adtOfAtomic t.start_time_with_offset_utc
    adjusted_start_time_utc := adtOfAtomic t.adjusted_start_time_utc
    split_name :=
      match t.current_split with
      | some s => s.name
      | none => "empty"
    action := action }

/-- `Timer::save_state`: builds `timer_state action` and invokes the change
callback with it; the invocation is recorded in the events log by its action
tag. -/
def Timer.save_state (t : Timer) (action : Action) : Timer :=
  { t with events := t.events ++ [action] }

/-- Replace the element at index `i` of a list by applying `f` to it
(out-of-range indices leave the list unchanged). -/
def listModify {α : Type} (l : List α) (i : ℕ) (f : α → α) : List α :=
  match l, i with
  | [], _ => []
  | a :: rest, 0 => f a :: rest
  | a :: rest, n + 1 => a :: listModify rest n f

/-- Rust's `usize::checked_sub(1)`. -/
def checkedSub1 (n : ℕ) : Option ℕ :=
  if n = 0 then none else some (n - 1)

/-- Rust's `Option<usize>` ordering restricted to `<`: `None` is smaller than
any `Some`. -/
def optNatLt (a b : Option ℕ) : Bool :=
  match a, b with
  | _, none => false
  | none, some _ => true
  | some x, some y => decide (x < y)

/-- The success path of `Timer::new`: fix splits, regenerate comparisons, and
build the initial timer with all anchors at the current instant. -/
def mkTimer (r : Run) (now : ℚ) : Timer :=
  { run := (r.fix_splits).regenerate_comparisons
    phase := .NotRunning
    current_split_index := none
    current_timing_method := .RealTime
    current_comparison := personalBestName
    attempt_started := none
    attempt_ended := none
    start_time := now
    start_time_with_offset := now
    adjusted_start_time := now
    time_paused_at := 0
    is_game_time_paused := false
    game_time_pause_time := none
    loading_times := none
    start_time_utc := utcNow now
    start_time_with_offset_utc := utcNow now
    adjusted_start_time_utc := utcNow now
    use_utc := true
    events := [] }

/-- `CreationError`. -/
inductive CreationError
  | EmptyRun
deriving DecidableEq, Repr

/-- `Timer::new`: fails on a run with no segments. -/
def Timer.new (r : Run) (now : ℚ) : Except CreationError Timer :=
  if r.segments.isEmpty then .error .EmptyRun else .ok (mkTimer r now)

/-- `Timer::start`: only acts in the `NotRunning` phase; anchors the attempt at
`now`, de-initializes Game Time, begins a new attempt in the run store and
notifies with action `Start`. -/
def Timer.start (t : Timer) (now : ℚ) : Timer :=
  if t.phase = .NotRunning then
    Timer.save_state
      { t with
        phase := .Running
        current_split_index := some 0
        attempt_started := some (utcNow now)
        start_time := now
        start_time_utc := utcNow now
        start_time_with_offset := now - t.run.offset
        adjusted_start_time := now - t.run.offset
        time_paused_at := t.run.offset
        loading_times := none
        run := t.run.start_next_run
        start_time_with_offset_utc := (utcNow now).subSpan t.run.offset
        adjusted_start_time_utc := (utcNow now).subSpan t.run.offset }
      .Start
  else t

/-- `Timer::split`: requires the `Running` phase and a present, non-negative
current real time; stores the current time and the custom-variables snapshot on
the current segment, increments the index, ends the attempt when the last
segment was split, marks the run modified and notifies with action `Split`. -/
def Timer.split (t : Timer) (now : ℚ) : Timer :=
  let ct := t.current_time now
  if t.phase = .Running ∧ (ct.real_time.any fun r => decide (0 ≤ r)) = true then
    let i := t.current_split_index.getD 0
    let t' : Timer :=
      { t with
        run :=
          { t.run with
            segments :=
              listModify t.run.segments i fun seg =>
                { seg with split_time := ct, vars := t.run.custom_variables }
            has_been_modified := true }
        current_split_index := some (i + 1) }
    let t' :=
      if t.run.len = i + 1 then
        { t' with phase := .Ended, attempt_ended := some (utcNow now) }
      else t'
    t'.save_state .Split
  else t

/-- `Timer::split_or_start`. -/
def Timer.split_or_start (t : Timer) (now : ℚ) : Timer :=
  if t.phase = .NotRunning then t.start now else t.split now

/-- `Timer::skip_split`: requires `Running` or `Paused` and
`current_split_index < run.len().checked_sub(1)`; clears the current segment's
split info, increments the index, marks the run modified and notifies with
action `Skip`. -/
def Timer.skip_split (t : Timer) : Timer :=
  if (t.phase = .Running ∨ t.phase = .Paused)
      ∧ optNatLt t.current_split_index (checkedSub1 t.run.len) = true then
    Timer.save_state
      { t with
        run :=
          { t.run with
            segments :=
              listModify t.run.segments (t.current_split_index.getD 0)
                Segment.clear_split_info
            has_been_modified := true }
        current_split_index := t.current_split_index.map fun i => i + 1 }
      .Skip
  else t

/-- `Timer::undo_split`: requires a phase other than `NotRunning` and
`current_split_index > Some(0)`; flips `Ended` back to `Running`, decrements
the index, clears the now-current segment's split info, marks the run modified
and notifies with action `Undo`. -/
def Timer.undo_split (t : Timer) : Timer :=
  if t.phase ≠ .NotRunning ∧ (t.current_split_index.any fun i => decide (0 < i)) = true then
    Timer.save_state
      { t with
        phase := if t.phase = .Ended then .Running else t.phase
        current_split_index := t.current_split_index.map fun i => i - 1
        run :=
          { t.run with
            segments :=
              listModify t.run.segments (t.current_split_index.getD 1 - 1)
                Segment.clear_split_info
            has_been_modified := true } }
      .Undo
  else t

/-- `Timer::pause`: requires `Running`; records the current real time in
`time_paused_at`, switches to `Paused` and notifies with action `Pause`. -/
def Timer.pause (t : Timer) (now : ℚ) : Timer :=
  if t.phase = .Running then
    Timer.save_state
      { t with
        time_paused_at := ((t.current_time now).real_time).getD 0
        phase := .Paused }
      .Pause
  else t

/-- `Timer::resume`: requires `Paused`; re-anchors both adjusted start times at
`now - time_paused_at`, switches to `Running` and notifies with action
`Resume`. -/
def Timer.resume (t : Timer) (now : ℚ) : Timer :=
  if t.phase = .Paused then
    Timer.save_state
      { t with
        adjusted_start_time := now - t.time_paused_at
        adjusted_start_time_utc := (utcNow now).subSpan t.time_paused_at
        phase := .Running }
      .Resume
  else t

/-- `Timer::toggle_pause`. -/
def Timer.toggle_pause (t : Timer) (now : ℚ) : Timer :=
  match t.phase with
  | .Running => t.pause now
  | .Paused => t.resume now
  | _ => t

/-- `Timer::toggle_pause_or_start`. -/
def Timer.toggle_pause_or_start (t : Timer) (now : ℚ) : Timer :=
  match t.phase with
  | .Running => t.pause now
  | .Paused => t.resume now
  | .NotRunning => t.start now
  | _ => t

/-- `Timer::get_pause_time`: total pause time of the current attempt, on the
axis selected by `use_utc`. -/
def Timer.get_pause_time (t : Timer) (now : ℚ) : Option ℚ :=
  let pt : Option ℚ :=
    match t.phase with
    | .Paused => some (now - t.start_time_with_offset - t.time_paused_at)
    | .Running | .Ended =>
      if t.start_time_with_offset ≠ t.adjusted_start_time then
        some (t.adjusted_start_time - t.start_time_with_offset)
      else none
    | .NotRunning => none
  let pt_utc : Option ℚ :=
    match t.phase with
    | .Paused => some ((utcNow now).time - t.start_time_with_offset_utc.time - t.time_paused_at)
    | .Running | .Ended =>
      if t.start_time_with_offset_utc ≠ t.adjusted_start_time_utc then
        some (t.adjusted_start_time_utc.time - t.start_time_with_offset_utc.time)
      else none
    | .NotRunning => none
  if t.use_utc then pt_utc else pt

/-- `Timer::set_loading_times`: sets the loading times, and while the game
timer is paused also re-derives `game_time_pause_time` from the current real
time. -/
def Timer.set_loading_times (t : Timer) (x : ℚ) (now : ℚ) : Timer :=
  let t' : Timer := { t with loading_times := some x }
  if t'.is_game_time_paused then
    { t' with game_time_pause_time := some (((t'.current_time now).real_time).getD 0 - x) }
  else t'

/-- `Timer::resume_game_time`: clears the game-time pause, fixing the loading
times to the current real/game time difference. -/
def Timer.resume_game_time (t : Timer) (now : ℚ) : Timer :=
  if t.is_game_time_paused then
    let ct := t.current_time now
    let diff : Option ℚ := ct.real_time.bind fun r => ct.game_time.map fun g => r - g
    let t' := t.set_loading_times (diff.getD 0) now
    { t' with is_game_time_paused := false }
  else t

/-- `Timer::update_attempt_history`: appends the attempt (with its final time
when `Ended`, a default time otherwise, and the computed pause time) to the
run's attempt history. -/
def Timer.update_attempt_history (t : Timer) (now : ℚ) : Timer :=
  let time := if t.phase = .Ended then t.current_time now else {}
  let pause_time := t.get_pause_time now
  { t with run := t.run.add_attempt time t.attempt_started t.attempt_ended pause_time }

/-- The per-segment walk of `Timer::update_best_segments`, carrying the
previous cumulative split times for the two axes independently. -/
def updateBestSegmentsAux : Option ℚ → Option ℚ → List Segment → List Segment
  | _, _, [] => []
  | prevR, prevG, split :: rest =>
    let stR := split.split_time.real_time
    let curR := stR.bind fun st => prevR.map fun p => st - p
    let prevR' := match stR with | some st => some st | none => prevR
    let newBestR : Option ℚ :=
      match stR with
      | some _ =>
        if split.best_segment_time.real_time.all fun b =>
            curR.any fun c => decide (c < b) then
          curR
        else split.best_segment_time.real_time
      | none => split.best_segment_time.real_time
    let stG := split.split_time.game_time
    let curG := stG.bind fun st => prevG.map fun p => st - p
    let prevG' := match stG with | some st => some st | none => prevG
    let newBestG : Option ℚ :=
      match stG with
      | some _ =>
        if split.best_segment_time.game_time.all fun b =>
            curG.any fun c => decide (c < b) then
          curG
        else split.best_segment_time.game_time
      | none => split.best_segment_time.game_time
    { split with best_segment_time := ⟨newBestR, newBestG⟩ }
      :: updateBestSegmentsAux prevR' prevG' rest

/-- `Timer::update_best_segments`. -/
def Timer.update_best_segments (t : Timer) : Timer :=
  { t with
    run := { t.run with segments := updateBestSegmentsAux (some 0) (some 0) t.run.segments } }

/-- `Timer::set_run_as_pb`: imports the stored PB into the segment history,
fixes splits, promotes every segment's split time to its PB split time, and
clears the run id. -/
def Timer.set_run_as_pb (t : Timer) : Timer :=
  let r := (t.run.import_pb_into_segment_history).fix_splits
  let r : Run :=
    { r with
      segments := r.segments.map fun s => { s with personal_best_split_time := s.split_time } }
  { t with run := r.clear_run_id }

/-- `Timer::update_pb_splits`: promotes the current run to PB when the final
split time under the current timing method beats (or first fills) the stored
PB split time. -/
def Timer.update_pb_splits (t : Timer) : Timer :=
  match t.run.segments.getLast? with
  | none => t
  | some last =>
    let s := last.split_time.get t.current_timing_method
    let pb := last.personal_best_split_time.get t.current_timing_method
    if s.any fun sv => pb.all fun pbv => decide (sv < pbv) then t.set_run_as_pb else t

/-- `Timer::update_segment_history`. -/
def Timer.update_segment_history (t : Timer) : Timer :=
  match t.current_split_index with
  | some i => { t with run := t.run.update_segment_history i }
  | none => t

/-- `Timer::reset_state`: records the attempt end when not already `Ended`,
resumes game time, zeroes the loading times, and when `update_times` is set
updates attempt history, best segments, PB splits and segment history. -/
def Timer.reset_state (t : Timer) (update_times : Bool) (now : ℚ) : Timer :=
  let t := if t.phase ≠ .Ended then { t with attempt_ended := some (utcNow now) } else t
  let t := t.resume_game_time now
  let t := t.set_loading_times 0 now
  if update_times then
    ((((t.update_attempt_history now).update_best_segments).update_pb_splits).update_segment_history)
  else t

/-- `Timer::reset_splits`: back to `NotRunning` with no current split, all
segments' split info cleared, splits fixed and comparisons regenerated. -/
def Timer.reset_splits (t : Timer) : Timer :=
  { t with
    phase := .NotRunning
    current_split_index := none
    run :=
      ((({ t.run with segments := t.run.segments.map Segment.clear_split_info } : Run).fix_splits).regenerate_comparisons) }

/-- `Timer::reset`: acts only when the phase is not `NotRunning`; resets the
state and the splits and notifies with action `Reset`. -/
def Timer.reset (t : Timer) (update_splits : Bool) (now : ℚ) : Timer :=
  if t.phase ≠ .NotRunning then
    (((t.reset_state update_splits now).reset_splits).save_state .Reset)
  else t

/-- `Timer::reset_and_set_attempt_as_pb`: as `reset(true)` with the attempt
promoted to PB between the state reset and the splits reset. No notification
is emitted. -/
def Timer.reset_and_set_attempt_as_pb (t : Timer) (now : ℚ) : Timer :=
  if t.phase ≠ .NotRunning then
    (((t.reset_state true now).set_run_as_pb).reset_splits)
  else t

/-- `Timer::undo_all_pauses`: resumes when paused; when `Ended` adds the pause
time onto the final segment's split time on both axes; in all cases collapses
the adjusted start times back onto the with-offset start times. -/
def Timer.undo_all_pauses (t : Timer) (now : ℚ) : Timer :=
  let t :=
    match t.phase with
    | .Paused => t.resume now
    | .Ended =>
      let pause_time := (t.get_pause_time now).getD 0
      { t with
        run :=
          { t.run with
            segments :=
              listModify t.run.segments (t.run.segments.length - 1) fun s =>
                { s with
                  split_time :=
                    s.split_time.add ⟨some pause_time, some pause_time⟩ } } }
    | _ => t
  { t with
    adjusted_start_time := t.start_time_with_offset
    adjusted_start_time_utc := t.start_time_with_offset_utc }

/-- `Timer::switch_to_next_comparison`: rotates the current comparison forward
within the run's comparison list (the source unwraps the current comparison's
position; the rotated name is looked up totally here). -/
def Timer.switch_to_next_comparison (t : Timer) : Timer :=
  let cs := t.run.comparisons
  let index := (cs.indexOf t.current_comparison + 1) % cs.length
  { t with current_comparison := cs.getD index t.current_comparison }

/-- `Timer::switch_to_previous_comparison`. -/
def Timer.switch_to_previous_comparison (t : Timer) : Timer :=
  let cs := t.run.comparisons
  let index := (cs.indexOf t.current_comparison + cs.length - 1) % cs.length
  { t with current_comparison := cs.getD index t.current_comparison }

/-- `Timer::replace_run`: an empty run is rejected as the error value with the
timer untouched; otherwise the attempt is reset, the comparison re-validated
against the new run, and the old run is handed back. -/
def Timer.replace_run (t : Timer) (r : Run) (update_splits : Bool) (now : ℚ) :
    Timer × Except Run Run :=
  if r.segments.isEmpty then (t, .error r)
  else
    let t := t.reset update_splits now
    let t :=
      if ¬ r.comparisons.contains t.current_comparison then
        { t with current_comparison := personalBestName }
      else t
    let r := (r.fix_splits).regenerate_comparisons
    ({ t with run := r }, .ok t.run)

/-- `Timer::set_run`: delegates to `replace_run` with `update_splits = false`,
dropping the returned old run. -/
def Timer.set_run (t : Timer) (r : Run) (now : ℚ) : Timer × Except Run Unit :=
  let p := t.replace_run r false now
  (p.1, p.2.map fun _ => ())

/-- `Timer::replace_state`: fails (the source aborts) when the snapshot's split
count differs from the run's segment count or the phase name is unknown;
otherwise loads the snapshot. The monotonic anchors are reset to `now`; the UTC
anchors are copied verbatim. `attempt_ended` is loaded from
`state.attempt_started`, mirroring the source. -/
def Timer.replace_state (t : Timer) (state : TimerState) (now : ℚ) : Option Timer :=
  if state.splits.length ≠ t.run.segments.length then none
  else
    match phaseOfStr state.phase with
    | none => none
    | some ph =>
      some
        { t with
          run :=
            { t.run with
              segments :=
                List.zipWith (fun seg sp => seg.set_split_time (timeOfTime64 sp))
                  t.run.segments state.splits }
          phase := ph
          current_split_index := state.current_split_index
          current_timing_method := state.current_timing_method
          current_comparison := state.current_comparison
          attempt_started := state.attempt_started.map atomicOfAdt
          attempt_ended := state.attempt_started.map atomicOfAdt
          start_time := now
          start_time_with_offset := now
          adjusted_start_time := now
          time_paused_at := state.time_paused_at
          is_game_time_paused := state.is_game_time_paused
          game_time_pause_time := state.game_time_pause_time
          loading_times := state.loading_times
          start_time_utc := atomicOfAdt state.start_time_utc
          start_time_with_offset_utc := atomicOfAdt state.start_time_with_offset_utc
          adjusted_start_time_utc := atomicOfAdt state.adjusted_start_time_utc }

/-- The states reachable from a freshly constructed timer by the mutating
timer operations. -/
inductive Reachable : Timer → Prop
  | base (r : Run) (now : ℚ) (h : r.segments ≠ []) : Reachable (mkTimer r now)
  | start (t : Timer) (now : ℚ) : Reachable t → Reachable (t.start now)
  | split (t : Timer) (now : ℚ) : Reachable t → Reachable (t.split now)
  | skip_split (t : Timer) : Reachable t → Reachable t.skip_split
  | undo_split (t : Timer) : Reachable t → Reachable t.undo_split
  | reset (t : Timer) (u : Bool) (now : ℚ) : Reachable t → Reachable (t.reset u now)
  | reset_pb (t : Timer) (now : ℚ) : Reachable t → Reachable (t.reset_and_set_attempt_as_pb now)
  | pause (t : Timer) (now : ℚ) : Reachable t → Reachable (t.pause now)
  | resume (t : Timer) (now : ℚ) : Reachable t → Reachable (t.resume now)
  | toggle_pause (t : Timer) (now : ℚ) : Reachable t → Reachable (t.toggle_pause now)
  | toggle_pause_or_start (t : Timer) (now : ℚ) :
      Reachable t → Reachable (t.toggle_pause_or_start now)
  | undo_all_pauses (t : Timer) (now : ℚ) : Reachable t → Reachable (t.undo_all_pauses now)

/-- The phase/index coupling: no index exactly in `NotRunning`, index equal to
the segment count exactly in `Ended`, and an in-range index in `Running` and
`Paused`; the run always keeps at least one segment. -/
def Inv (t : Timer) : Prop :=
  t.run.segments ≠ []
  ∧ (t.phase = .NotRunning ↔ t.current_split_index = none)
  ∧ (t.phase = .Ended ↔ t.current_split_index = some t.run.len)
  ∧ ((t.phase = .Running ∨ t.phase = .Paused)
      → ∃ i, t.current_split_index = some i ∧ i < t.run.len)

/-- Timed reachability: `ReachAt t t₀` says the timer state `t` arises from a
fresh timer by the mutating operations, every clock sample being taken at a
nondecreasing sequence of instants, the last one at `t₀`. -/
inductive ReachAt : Timer → ℚ → Prop
  | base (r : Run) (now : ℚ) (h : r.segments ≠ []) : ReachAt (mkTimer r now) now
  | start (t : Timer) (t₀ now : ℚ) : ReachAt t t₀ → t₀ ≤ now → ReachAt (t.start now) now
  | split (t : Timer) (t₀ now : ℚ) : ReachAt t t₀ → t₀ ≤ now → ReachAt (t.split now) now
  | skip_split (t : Timer) (t₀ : ℚ) : ReachAt t t₀ → ReachAt t.skip_split t₀
  | undo_split (t : Timer) (t₀ : ℚ) : ReachAt t t₀ → ReachAt t.undo_split t₀
  | reset (t : Timer) (t₀ : ℚ) (u : Bool) (now : ℚ) :
      ReachAt t t₀ → t₀ ≤ now → ReachAt (t.reset u now) now
  | reset_pb (t : Timer) (t₀ now : ℚ) :
      ReachAt t t₀ → t₀ ≤ now → ReachAt (t.reset_and_set_attempt_as_pb now) now
  | pause (t : Timer) (t₀ now : ℚ) : ReachAt t t₀ → t₀ ≤ now → ReachAt (t.pause now) now
  | resume (t : Timer) (t₀ now : ℚ) : ReachAt t t₀ → t₀ ≤ now → ReachAt (t.resume now) now
  | toggle_pause (t : Timer) (t₀ now : ℚ) :
      ReachAt t t₀ → t₀ ≤ now → ReachAt (t.toggle_pause now) now
  | toggle_pause_or_start (t : Timer) (t₀ now : ℚ) :
      ReachAt t t₀ → t₀ ≤ now → ReachAt (t.toggle_pause_or_start now) now
  | undo_all_pauses (t : Timer) (t₀ now : ℚ) :
      ReachAt t t₀ → t₀ ≤ now → ReachAt (t.undo_all_pauses now) now

/-- The anchor discipline at last sample instant `t₀`: the adjusted start time
never precedes the with-offset start time, the UTC anchors carry the same
instants as the monotonic ones, and while paused the recorded pause value is
consistent with the last sample. -/
def AnchorInv (t : Timer) (t₀ : ℚ) : Prop :=
  t.start_time_with_offset ≤ t.adjusted_start_time
  ∧ t.start_time_with_offset_utc.time = t.start_time_with_offset
  ∧ t.adjusted_start_time_utc.time = t.adjusted_start_time
  ∧ (t.phase = .Paused → t.time_paused_at ≤ t₀ - t.adjusted_start_time)

/-- A one-segment sample segment. -/
def segA : Segment :=
  { name := "A" }

/-- A second sample segment. -/
def segB : Segment :=
  { name := "B" }

/-- A sample run with one segment. -/
def runOne : Run :=
  { segments := [segA]
    comparisons := [personalBestName]
    comparisons_nodup := by decide
    offset := 0
    custom_variables := []
    attempt_count := 0
    attempt_history := []
    has_been_modified := false
    run_id := "" }

/-- A sample run with two segments and two comparisons. -/
def runAB : Run :=
  { segments := [segA, segB]
    comparisons := [personalBestName, "Best Segments"]
    comparisons_nodup := by decide
    offset := 0
    custom_variables := []
    attempt_count := 0
    attempt_history := []
    has_been_modified := false
    run_id := "" }

/-- A run with no segments (rejected by `Timer::new` and
`Timer::replace_run`). -/
def emptyRun : Run :=
  { segments := []
    comparisons := [personalBestName]
    comparisons_nodup := by decide
    offset := 0
    custom_variables := []
    attempt_count := 0
    attempt_history := []
    has_been_modified := false
    run_id := "" }

/-- A sample timer in the `Running` phase on the first of two segments,
started at instant 0. -/
def tRunning : Timer :=
  { run := runAB
    phase := .Running
    current_split_index := some 0
    current_timing_method := .RealTime
    current_comparison := personalBestName
    attempt_started := some ⟨0, true⟩
    attempt_ended := none
    start_time := 0
    start_time_with_offset := 0
    adjusted_start_time := 0
    time_paused_at := 0
    is_game_time_paused := false
    game_time_pause_time := none
    loading_times := none
    start_time_utc := ⟨0, true⟩
    start_time_with_offset_utc := ⟨0, true⟩
    adjusted_start_time_utc := ⟨0, true⟩
    use_utc := true
    events := [] }

/-- A serialized snapshot whose `attempt_started` and `attempt_ended` differ,
compatible with `runOne`'s single segment. -/
def sOneState : TimerState :=
  { splits := [{}]
    phase := "Running"
    current_split_index := some 0
    current_timing_method := .RealTime
    current_comparison := personalBestName
    attempt_started := some ⟨1, true⟩
    attempt_ended := some ⟨2, true⟩
    time_paused_at := 0
    is_game_time_paused := false
    game_time_pause_time := none
    loading_times := none
    start_time_utc := ⟨0, true⟩
    start_time_with_offset_utc := ⟨0, true⟩
    adjusted_start_time_utc := ⟨0, true⟩
    split_name := "A"
    action := .None }

end LiveSplit

namespace LiveSplit

lemma listModify_length {α : Type} (l : List α) (i : ℕ) (f : α → α) :
    (listModify l i f).length = l.length := by
  induction l generalizing i with
  | nil => rfl
  | cons a rest ih =>
    cases i with
    | zero => rfl
    | succ n => simpa [listModify] using ih n

lemma optNatLt_last (n : ℕ) : optNatLt (some (n - 1)) (checkedSub1 n) = false := by
  cases n with
  | zero => rfl
  | succ m => simp [optNatLt, checkedSub1]

lemma reset_phase (t : Timer) (u : Bool) (n : ℚ) :
    (t.reset u n).phase = .NotRunning := by
  unfold Timer.reset
  split
  · rfl
  · next h =>
    simpa using not_not.mp h

lemma reset_of_notRunning {t : Timer} (u : Bool) (n : ℚ) (h : t.phase = .NotRunning) :
    t.reset u n = t := by
  simp [Timer.reset, h]

/-- C9: `reset` is idempotent on the timer state: a second `reset(u)` finds the
timer in the `NotRunning` phase and is a silent no-op, so `reset(u); reset(u)`
leaves exactly the state of a single `reset(u)`. -/
theorem c9_reset_idempotent (t : Timer) (u : Bool) (n₁ n₂ : ℚ) :
    (t.reset u n₁).reset u n₂ = t.reset u n₁ :=
  reset_of_notRunning u n₂ (reset_phase t u n₁)

/-- C5: every phase-guarded operation invoked outside its allowed phases is a
silent no-op: `start` outside `NotRunning`, `split` and `pause` outside
`Running`, `resume` outside `Paused`, `skip_split` outside `Running`/`Paused`
or on the last split, `undo_split` in `NotRunning` or on index 0, and `reset`
in `NotRunning` all return the timer unchanged, with no callback and no
error. -/
theorem c5_silent_noops (t : Timer) (now : ℚ) (u : Bool) :
    (t.phase ≠ .NotRunning → t.start now = t)
    ∧ (t.phase ≠ .Running → t.split now = t)
    ∧ (t.phase ≠ .Running → t.pause now = t)
    ∧ (t.phase ≠ .Paused → t.resume now = t)
    ∧ (¬(t.phase = .Running ∨ t.phase = .Paused) → t.skip_split = t)
    ∧ (t.current_split_index = some (t.run.len - 1) → t.skip_split = t)
    ∧ (t.phase = .NotRunning → t.undo_split = t)
    ∧ (t.current_split_index = some 0 → t.undo_split = t)
    ∧ (t.phase = .NotRunning → t.reset u now = t) := by
  refine ⟨?_, ?_, ?_, ?_, ?_, ?_, ?_, ?_, ?_⟩
  · intro h; simp [Timer.start, h]
  · intro h; simp [Timer.split, h]
  · intro h; simp [Timer.pause, h]
  · intro h; simp [Timer.resume, h]
  · intro h; simp [Timer.skip_split, h]
  · intro h; simp [Timer.skip_split, h, optNatLt_last]
  · intro h; simp [Timer.undo_split, h]
  · intro h; simp [Timer.undo_split, h]
  · intro h; exact reset_of_notRunning u now h

/-- Witness for C5 at concrete inputs: a running timer rejects `start`, and a
fresh timer rejects `split`, `pause`, `resume`, `skip_split`, `undo_split` and
`reset`. -/
theorem c5_witness :
    (tRunning.phase ≠ .NotRunning ∧ tRunning.start 5 = tRunning)
    ∧ ((mkTimer runAB 0).phase ≠ .Running ∧ (mkTimer runAB 0).split 5 = mkTimer runAB 0)
    ∧ ((mkTimer runAB 0).phase ≠ .Running ∧ (mkTimer runAB 0).pause 5 = mkTimer runAB 0)
    ∧ ((mkTimer runAB 0).phase ≠ .Paused ∧ (mkTimer runAB 0).resume 5 = mkTimer runAB 0)
    ∧ (¬((mkTimer runAB 0).phase = .Running ∨ (mkTimer runAB 0).phase = .Paused)
        ∧ (mkTimer runAB 0).skip_split = mkTimer runAB 0)
    ∧ ((mkTimer runAB 0).phase = .NotRunning ∧ (mkTimer runAB 0).undo_split = mkTimer runAB 0)
    ∧ ((mkTimer runAB 0).phase = .NotRunning ∧ (mkTimer runAB 0).reset true 5 = mkTimer runAB 0) :=
  ⟨⟨by decide, ((c5_silent_noops tRunning 5 true).1 (by decide))⟩,
   ⟨by decide, ((c5_silent_noops (mkTimer runAB 0) 5 true).2.1 (by decide))⟩,
   ⟨by decide, ((c5_silent_noops (mkTimer runAB 0) 5 true).2.2.1 (by decide))⟩,
   ⟨by decide, ((c5_silent_noops (mkTimer runAB 0) 5 true).2.2.2.1 (by decide))⟩,
   ⟨by decide, ((c5_silent_noops (mkTimer runAB 0) 5 true).2.2.2.2.1 (by decide))⟩,
   ⟨by decide, ((c5_silent_noops (mkTimer runAB 0) 5 true).2.2.2.2.2.2.1 (by decide))⟩,
   ⟨by decide, ((c5_silent_noops (mkTimer runAB 0) 5 true).2.2.2.2.2.2.2.2 (by decide))⟩⟩

/-- C10: replacing the run with a run that has no segments fails atomically:
`replace_run` returns the rejected run as the error and the timer — run, phase,
index, comparison, anchors, game-time fields, event log — is completely
untouched; `set_run` behaves the same way. -/
theorem c10_replace_run_empty (t : Timer) (r : Run) (u : Bool) (now : ℚ)
    (h : r.segments = []) :
    t.replace_run r u now = (t, Except.error r)
    ∧ t.set_run r now = (t, Except.error r) := by
  constructor
  · simp [Timer.replace_run, h]
  · simp [Timer.set_run, Timer.replace_run, h, Except.map]

/-- Witness for C10: the empty run is rejected by a concrete running timer. -/
theorem c10_witness :
    emptyRun.segments = []
    ∧ tRunning.replace_run emptyRun true 5 = (tRunning, Except.error emptyRun)
    ∧ tRunning.set_run emptyRun 5 = (tRunning, Except.error emptyRun) :=
  ⟨rfl, (c10_replace_run_empty tRunning emptyRun true 5 rfl).1,
   (c10_replace_run_empty tRunning emptyRun true 5 rfl).2⟩

/-- C4 (code bug): `replace_state` loads the timer's `attempt_ended` from the
snapshot's `attempt_started` instead of from `attempt_ended`: on a snapshot
whose two markers differ (started at 1, ended at 2), the loaded timer reports
`attempt_ended` = the instant 1 carried by `attempt_started`, not the instant 2
carried by `attempt_ended`. -/
theorem c4_replace_state_attempt_markers :
    ((mkTimer runOne 0).replace_state sOneState 0).map Timer.attempt_started
        = some (some ⟨1, true⟩)
    ∧ ((mkTimer runOne 0).replace_state sOneState 0).map Timer.attempt_ended
        = some (some ⟨1, true⟩)
    ∧ sOneState.attempt_started = some ⟨1, true⟩
    ∧ sOneState.attempt_ended = some ⟨2, true⟩ := by
  refine ⟨?_, ?_, rfl, rfl⟩ <;> decide

lemma events_set_loading_times (t : Timer) (x n : ℚ) :
    (t.set_loading_times x n).events = t.events := by
  simp [Timer.set_loading_times, apply_ite Timer.events]

lemma events_resume_game_time (t : Timer) (n : ℚ) :
    (t.resume_game_time n).events = t.events := by
  simp [Timer.resume_game_time, events_set_loading_times, apply_ite Timer.events]

lemma events_set_run_as_pb (t : Timer) : (t.set_run_as_pb).events = t.events :=
  rfl

lemma events_update_pb_splits (t : Timer) : (t.update_pb_splits).events = t.events := by
  unfold Timer.update_pb_splits
  cases t.run.segments.getLast? with
  | none => rfl
  | some last => simp [events_set_run_as_pb, apply_ite Timer.events]

lemma events_update_segment_history (t : Timer) :
    (t.update_segment_history).events = t.events := by
  unfold Timer.update_segment_history
  cases t.current_split_index <;> rfl

lemma events_reset_state (t : Timer) (u : Bool) (n : ℚ) :
    (t.reset_state u n).events = t.events := by
  unfold Timer.reset_state
  simp [events_resume_game_time, events_set_loading_times, events_update_segment_history,
    events_update_pb_splits, Timer.update_best_segments, Timer.update_attempt_history,
    apply_ite Timer.events]

/-- C6 counterexample: `reset_and_set_attempt_as_pb` on a concrete running
timer changes the observable state (the phase moves to `NotRunning`) yet never
invokes the change callback, refuting that every state-changing operation
notifies exactly once. -/
theorem c6_cex :
    (tRunning.reset_and_set_attempt_as_pb 5).phase ≠ tRunning.phase
    ∧ (tRunning.reset_and_set_attempt_as_pb 5).events = tRunning.events := by
  constructor
  · decide
  · decide

/-- C6 as amended: `start`, `split`, `skip_split`, `undo_split`, `reset`,
`pause` and `resume`, whenever their guard accepts, invoke the change callback
exactly once with the matching action tag; but `reset_and_set_attempt_as_pb`,
`undo_all_pauses` outside the `Paused` phase, and the two comparison switches
never invoke the callback. -/
theorem c6_notifications (t : Timer) (now : ℚ) (u : Bool) :
    (t.phase = .NotRunning → (t.start now).events = t.events ++ [Action.Start])
    ∧ (t.phase = .Running
        → (((t.current_time now).real_time.any fun r => decide (0 ≤ r)) = true)
        → (t.split now).events = t.events ++ [Action.Split])
    ∧ ((t.phase = .Running ∨ t.phase = .Paused)
        → optNatLt t.current_split_index (checkedSub1 t.run.len) = true
        → (t.skip_split).events = t.events ++ [Action.Skip])
    ∧ (t.phase ≠ .NotRunning
        → ((t.current_split_index.any fun i => decide (0 < i)) = true)
        → (t.undo_split).events = t.events ++ [Action.Undo])
    ∧ (t.phase ≠ .NotRunning → (t.reset u now).events = t.events ++ [Action.Reset])
    ∧ (t.phase = .Running → (t.pause now).events = t.events ++ [Action.Pause])
    ∧ (t.phase = .Paused → (t.resume now).events = t.events ++ [Action.Resume])
    ∧ ((t.reset_and_set_attempt_as_pb now).events = t.events)
    ∧ (t.phase ≠ .Paused → (t.undo_all_pauses now).events = t.events)
    ∧ ((t.switch_to_next_comparison).events = t.events)
    ∧ ((t.switch_to_previous_comparison).events = t.events) := by
  refine ⟨?_, ?_, ?_, ?_, ?_, ?_, ?_, ?_, ?_, rfl, rfl⟩
  · intro h; simp [Timer.start, h, Timer.save_state]
  · intro h hr; simp [Timer.split, h, hr, Timer.save_state, apply_ite Timer.events]
  · intro h hg; simp [Timer.skip_split, h, hg, Timer.save_state]
  · intro h hg; simp [Timer.undo_split, h, hg, Timer.save_state]
  · intro h
    simp [Timer.reset, h, Timer.save_state, Timer.reset_splits, events_reset_state]
  · intro h; simp [Timer.pause, h, Timer.save_state]
  · intro h; simp [Timer.resume, h, Timer.save_state]
  · unfold Timer.reset_and_set_attempt_as_pb
    split
    · simp [Timer.reset_splits, events_set_run_as_pb, events_reset_state]
    · rfl
  · intro h
    unfold Timer.undo_all_pauses
    cases hp : t.phase <;> simp_all

/-- Witness for C6 as amended: the accepting cases observed on concrete
timers. -/
theorem c6_witness :
    ((mkTimer runAB 0).phase = .NotRunning
      ∧ ((mkTimer runAB 0).start 5).events = (mkTimer runAB 0).events ++ [Action.Start])
    ∧ (tRunning.phase = .Running
      ∧ (((tRunning.current_time 5).real_time.any fun r => decide (0 ≤ r)) = true)
      ∧ (tRunning.split 5).events = tRunning.events ++ [Action.Split])
    ∧ (tRunning.phase ≠ .NotRunning
      ∧ (tRunning.reset true 5).events = tRunning.events ++ [Action.Reset])
    ∧ (tRunning.phase ≠ .Paused
      ∧ (tRunning.undo_all_pauses 5).events = tRunning.events) :=
  ⟨⟨by decide, (c6_notifications (mkTimer runAB 0) 5 true).1 (by decide)⟩,
   ⟨by decide, by norm_num [Timer.current_time, tRunning, utcNow, Option.any],
    (c6_notifications tRunning 5 true).2.1 (by decide)
      (by norm_num [Timer.current_time, tRunning, utcNow, Option.any])⟩,
   ⟨by decide, (c6_notifications tRunning 5 true).2.2.2.2.1 (by decide)⟩,
   ⟨by decide, (c6_notifications tRunning 5 true).2.2.2.2.2.2.2.2.1 (by decide)⟩⟩

lemma adt_round (a : AtomicDateTime) : atomicOfAdt (adtOfAtomic a) = a :=
  rfl

lemma phaseOfStr_phaseStr (p : TimerPhase) : phaseOfStr (phaseStr p) = some p := by
  cases p <;> rfl

lemma map_split_time_zipWith (l l₂ : List Segment) (hlen : l₂.length = l.length) :
    (List.zipWith (fun seg sp => seg.set_split_time (timeOfTime64 sp)) l₂
        (l.map fun s => time64OfTime s.split_time)).map Segment.split_time
      = l.map Segment.split_time := by
  induction l generalizing l₂ with
  | nil => simp
  | cons s rest ih =>
    cases l₂ with
    | nil => simp at hlen
    | cons a rest₂ =>
      simp only [List.length_cons, Nat.succ.injEq] at hlen
      simp only [List.map_cons, List.zipWith_cons_cons]
      rw [ih rest₂ hlen]
      simp [Segment.set_split_time, timeOfTime64, time64OfTime]

/-- C1: for a timer in a non-terminal phase, loading `timer_state(None)` into a
second timer built from the same run succeeds and reproduces the phase, split
index, per-segment split times, timing method, comparison, game-time pause
fields, loading times and the three UTC anchors. -/
theorem c1_replace_state_round_trip (t t₂ : Timer) (now : ℚ)
    (hrun : t₂.run = t.run) (hph : t.phase ≠ .Ended) :
    ∃ t₃, t₂.replace_state (t.timer_state .None) now = some t₃
      ∧ t₃.phase = t.phase
      ∧ t₃.current_split_index = t.current_split_index
      ∧ t₃.run.segments.map Segment.split_time = t.run.segments.map Segment.split_time
      ∧ t₃.current_timing_method = t.current_timing_method
      ∧ t₃.current_comparison = t.current_comparison
      ∧ t₃.is_game_time_paused = t.is_game_time_paused
      ∧ t₃.game_time_pause_time = t.game_time_pause_time
      ∧ t₃.loading_times = t.loading_times
      ∧ t₃.start_time_utc = t.start_time_utc
      ∧ t₃.start_time_with_offset_utc = t.start_time_with_offset_utc
      ∧ t₃.adjusted_start_time_utc = t.adjusted_start_time_utc := by
  unfold Timer.replace_state Timer.timer_state
  rw [if_neg (by simp [hrun])]
  rw [phaseOfStr_phaseStr]
  refine ⟨_, rfl, rfl, rfl, ?_, rfl, rfl, rfl, rfl, rfl, rfl, rfl, rfl⟩
  simpa [hrun] using
    map_split_time_zipWith t.run.segments t₂.run.segments (by rw [hrun])

/-- Witness for C1: the round trip observed on a concrete running timer and a
fresh timer built from the same run. -/
theorem c1_witness :
    (mkTimer runAB 0).run = tRunning.run ∧ tRunning.phase ≠ .Ended
    ∧ ∃ t₃, (mkTimer runAB 0).replace_state (tRunning.timer_state .None) 7 = some t₃
      ∧ t₃.phase = tRunning.phase
      ∧ t₃.current_split_index = tRunning.current_split_index
      ∧ t₃.run.segments.map Segment.split_time
          = tRunning.run.segments.map Segment.split_time
      ∧ t₃.current_timing_method = tRunning.current_timing_method
      ∧ t₃.current_comparison = tRunning.current_comparison
      ∧ t₃.is_game_time_paused = tRunning.is_game_time_paused
      ∧ t₃.game_time_pause_time = tRunning.game_time_pause_time
      ∧ t₃.loading_times = tRunning.loading_times
      ∧ t₃.start_time_utc = tRunning.start_time_utc
      ∧ t₃.start_time_with_offset_utc = tRunning.start_time_with_offset_utc
      ∧ t₃.adjusted_start_time_utc = tRunning.adjusted_start_time_utc :=
  ⟨rfl, by decide, c1_replace_state_round_trip tRunning (mkTimer runAB 0) 7 rfl (by decide)⟩

lemma listModify_get?_self {α : Type} (l : List α) (i : ℕ) (f : α → α) :
    (listModify l i f)[i]? = (l[i]?).map f := by
  induction l generalizing i with
  | nil => simp [listModify]
  | cons a rest ih =>
    cases i with
    | zero => simp [listModify]
    | succ n => simpa [listModify] using ih n

/-- C3: `split` has no effect unless the phase is `Running` and the current
real time is present and non-negative; when accepted it stores the current
time and the custom-variables snapshot on the current segment, increments the
split index, and exactly when the new index reaches the run length it ends the
attempt, setting the phase to `Ended` and recording `attempt_ended` at the
current instant (otherwise the phase stays `Running`). -/
theorem c3_split_spec (t : Timer) (now : ℚ) (i : ℕ) :
    (¬(t.phase = .Running
        ∧ (((t.current_time now).real_time.any fun r => decide (0 ≤ r)) = true))
      → t.split now = t)
    ∧ (t.phase = .Running
      → (((t.current_time now).real_time.any fun r => decide (0 ≤ r)) = true)
      → t.current_split_index = some i
      → i < t.run.len
      → ((t.split now).run.segments.get? i
            = (t.run.segments.get? i).map fun s =>
                { s with split_time := t.current_time now, vars := t.run.custom_variables })
        ∧ (t.split now).current_split_index = some (i + 1)
        ∧ (i + 1 = t.run.len
            → (t.split now).phase = .Ended
              ∧ (t.split now).attempt_ended = some (utcNow now))
        ∧ (i + 1 ≠ t.run.len → (t.split now).phase = .Running)) := by
  constructor
  · intro h
    simp only [Timer.split]
    rw [if_neg h]
  · intro h1 h2 h3 h4
    by_cases hE : t.run.len = i + 1
    · refine ⟨?_, ?_, fun _ => ⟨?_, ?_⟩, fun hc => absurd hE.symm hc⟩ <;>
        simp [Timer.split, h1, h2, h3, hE, Timer.save_state, listModify_get?_self]
    · refine ⟨?_, ?_, fun hc => absurd hc.symm hE, fun _ => ?_⟩ <;>
        simp [Timer.split, h1, h2, h3, hE, Timer.save_state, listModify_get?_self]

/-- Witness for C3: an accepted split on a concrete running timer stores the
current time on segment "A" and advances to the second segment. -/
theorem c3_witness :
    tRunning.phase = .Running
    ∧ (((tRunning.current_time 5).real_time.any fun r => decide (0 ≤ r)) = true)
    ∧ tRunning.current_split_index = some 0
    ∧ 0 < tRunning.run.len
    ∧ ((tRunning.split 5).run.segments.get? 0
          = (tRunning.run.segments.get? 0).map fun s =>
              { s with split_time := tRunning.current_time 5
                       vars := tRunning.run.custom_variables })
    ∧ (tRunning.split 5).current_split_index = some 1
    ∧ (0 + 1 ≠ tRunning.run.len → (tRunning.split 5).phase = .Running) := by
  have hg : ((tRunning.current_time 5).real_time.any fun r => decide (0 ≤ r)) = true := by
    norm_num [Timer.current_time, tRunning, utcNow, Option.any]
  have h := (c3_split_spec tRunning 5 0).2 (by decide) hg (by decide) (by decide)
  exact ⟨by decide, hg, by decide, by decide, h.1, h.2.1, h.2.2.2⟩

lemma getD_of_lt {α : Type} (l : List α) (i : ℕ) (h : i < l.length) (d : α) :
    l.getD i d = l[i] := by
  simp [List.getD_eq_getElem?_getD, List.getElem?_eq_getElem h]

lemma switch_next_iter (t : Timer) (j : ℕ) (hj : j < t.run.comparisons.length)
    (hc : t.current_comparison = t.run.comparisons.getD j "") (k : ℕ) :
    (Timer.switch_to_next_comparison^[k] t).run = t.run
    ∧ (Timer.switch_to_next_comparison^[k] t).current_comparison
        = t.run.comparisons.getD ((j + k) % t.run.comparisons.length) "" := by
  have hlen : 0 < t.run.comparisons.length := Nat.lt_of_le_of_lt (Nat.zero_le j) hj
  induction k with
  | zero =>
    refine ⟨rfl, ?_⟩
    rwa [Nat.add_zero, Nat.mod_eq_of_lt hj]
  | succ k ih =>
    obtain ⟨hr, hcc⟩ := ih
    rw [Function.iterate_succ_apply']
    have hmod : (j + k) % t.run.comparisons.length < t.run.comparisons.length :=
      Nat.mod_lt _ hlen
    constructor
    · rw [Timer.switch_to_next_comparison]
      exact hr
    · rw [Timer.switch_to_next_comparison]
      show (Timer.switch_to_next_comparison^[k] t).run.comparisons.getD _ _ = _
      rw [hr, hcc, getD_of_lt _ _ hmod,
        List.indexOf_getElem t.run.comparisons_nodup _ hmod,
        getD_of_lt _ _ (Nat.mod_lt _ hlen), getD_of_lt _ _ (Nat.mod_lt _ hlen)]
      congr 1
      rw [Nat.mod_add_mod, Nat.add_assoc]

/-- C8: when the current comparison occurs in the run's (non-empty) comparison
list, applying `switch_to_next_comparison` exactly `len(comparisons)` times
rotates back to the original comparison. -/
theorem c8_comparison_rotation (t : Timer)
    (h : t.current_comparison ∈ t.run.comparisons) (hne : t.run.comparisons ≠ []) :
    (Timer.switch_to_next_comparison^[t.run.comparisons.length] t).current_comparison
      = t.current_comparison := by
  have hj : t.run.comparisons.indexOf t.current_comparison < t.run.comparisons.length :=
    List.indexOf_lt_length.mpr h
  have hc : t.current_comparison
      = t.run.comparisons.getD (t.run.comparisons.indexOf t.current_comparison) "" := by
    rw [getD_of_lt _ _ hj, List.getElem_indexOf hj]
  rw [(switch_next_iter t _ hj hc t.run.comparisons.length).2,
    Nat.add_mod_right, Nat.mod_eq_of_lt hj]
  exact hc.symm

lemma segmentHistoryAux_length (p : Time) (i : ℕ) (l : List Segment) :
    (segmentHistoryAux p i l).length = l.length := by
  induction l generalizing p i with
  | nil => cases i <;> rfl
  | cons s rest ih =>
    cases i with
    | zero => rfl
    | succ n => simpa [segmentHistoryAux] using ih s.split_time n

lemma updateBestSegmentsAux_length (pR pG : Option ℚ) (l : List Segment) :
    (updateBestSegmentsAux pR pG l).length = l.length := by
  induction l generalizing pR pG with
  | nil => rfl
  | cons s rest ih => simpa [updateBestSegmentsAux] using ih _ _

lemma phase_set_loading_times (t : Timer) (x n : ℚ) :
    (t.set_loading_times x n).phase = t.phase := by
  simp [Timer.set_loading_times, apply_ite Timer.phase]

lemma csi_set_loading_times (t : Timer) (x n : ℚ) :
    (t.set_loading_times x n).current_split_index = t.current_split_index := by
  simp [Timer.set_loading_times, apply_ite Timer.current_split_index]

lemma run_set_loading_times (t : Timer) (x n : ℚ) :
    (t.set_loading_times x n).run = t.run := by
  simp [Timer.set_loading_times, apply_ite Timer.run]

lemma phase_resume_game_time (t : Timer) (n : ℚ) :
    (t.resume_game_time n).phase = t.phase := by
  simp [Timer.resume_game_time, apply_ite Timer.phase, phase_set_loading_times]

lemma csi_resume_game_time (t : Timer) (n : ℚ) :
    (t.resume_game_time n).current_split_index = t.current_split_index := by
  simp [Timer.resume_game_time, apply_ite Timer.current_split_index, csi_set_loading_times]

lemma run_resume_game_time (t : Timer) (n : ℚ) :
    (t.resume_game_time n).run = t.run := by
  simp [Timer.resume_game_time, apply_ite Timer.run, run_set_loading_times]

lemma phase_update_attempt_history (t : Timer) (n : ℚ) :
    (t.update_attempt_history n).phase = t.phase :=
  rfl

lemma csi_update_attempt_history (t : Timer) (n : ℚ) :
    (t.update_attempt_history n).current_split_index = t.current_split_index :=
  rfl

lemma segments_update_attempt_history (t : Timer) (n : ℚ) :
    (t.update_attempt_history n).run.segments = t.run.segments :=
  rfl

lemma phase_update_best_segments (t : Timer) :
    (t.update_best_segments).phase = t.phase :=
  rfl

lemma csi_update_best_segments (t : Timer) :
    (t.update_best_segments).current_split_index = t.current_split_index :=
  rfl

lemma len_update_best_segments (t : Timer) :
    (t.update_best_segments).run.segments.length = t.run.segments.length := by
  simp [Timer.update_best_segments, updateBestSegmentsAux_length]

lemma phase_set_run_as_pb (t : Timer) : (t.set_run_as_pb).phase = t.phase :=
  rfl

lemma csi_set_run_as_pb (t : Timer) :
    (t.set_run_as_pb).current_split_index = t.current_split_index :=
  rfl

lemma len_set_run_as_pb (t : Timer) :
    (t.set_run_as_pb).run.segments.length = t.run.segments.length := by
  simp [Timer.set_run_as_pb, Run.clear_run_id, Run.fix_splits,
    Run.import_pb_into_segment_history]

lemma phase_update_pb_splits (t : Timer) : (t.update_pb_splits).phase = t.phase := by
  unfold Timer.update_pb_splits
  cases t.run.segments.getLast? with
  | none => rfl
  | some last => simp [apply_ite Timer.phase, phase_set_run_as_pb]

lemma csi_update_pb_splits (t : Timer) :
    (t.update_pb_splits).current_split_index = t.current_split_index := by
  unfold Timer.update_pb_splits
  cases t.run.segments.getLast? with
  | none => rfl
  | some last => simp [apply_ite Timer.current_split_index, csi_set_run_as_pb]

lemma len_update_pb_splits (t : Timer) :
    (t.update_pb_splits).run.segments.length = t.run.segments.length := by
  unfold Timer.update_pb_splits
  cases t.run.segments.getLast? with
  | none => rfl
  | some last =>
    simp only [apply_ite (fun s : Timer => s.run.segments.length), len_set_run_as_pb]
    simp

lemma phase_update_segment_history (t : Timer) :
    (t.update_segment_history).phase = t.phase := by
  unfold Timer.update_segment_history
  cases t.current_split_index <;> rfl

lemma csi_update_segment_history (t : Timer) :
    (t.update_segment_history).current_split_index = t.current_split_index := by
  unfold Timer.update_segment_history
  cases h : t.current_split_index with
  | none => simpa using h
  | some i => rfl

lemma len_update_segment_history (t : Timer) :
    (t.update_segment_history).run.segments.length = t.run.segments.length := by
  unfold Timer.update_segment_history
  cases h : t.current_split_index with
  | none => rfl
  | some i => simp [Run.update_segment_history, segmentHistoryAux_length]

lemma phase_reset_state (t : Timer) (u : Bool) (n : ℚ) :
    (t.reset_state u n).phase = t.phase := by
  simp [Timer.reset_state, apply_ite Timer.phase, phase_set_loading_times,
    phase_resume_game_time, phase_update_attempt_history, phase_update_best_segments,
    phase_update_pb_splits, phase_update_segment_history]

lemma csi_reset_state (t : Timer) (u : Bool) (n : ℚ) :
    (t.reset_state u n).current_split_index = t.current_split_index := by
  simp [Timer.reset_state, apply_ite Timer.current_split_index, csi_set_loading_times,
    csi_resume_game_time, csi_update_attempt_history, csi_update_best_segments,
    csi_update_pb_splits, csi_update_segment_history]

lemma len_reset_state (t : Timer) (u : Bool) (n : ℚ) :
    (t.reset_state u n).run.segments.length = t.run.segments.length := by
  simp only [Timer.reset_state]
  simp only [apply_ite (fun s : Timer => s.run.segments.length),
    len_update_segment_history, len_update_pb_splits, len_update_best_segments,
    segments_update_attempt_history]
  simp [run_set_loading_times, run_resume_game_time, apply_ite Timer.run]

lemma len_reset_splits (t : Timer) :
    (t.reset_splits).run.segments.length = t.run.segments.length := by
  simp [Timer.reset_splits, Run.fix_splits, Run.regenerate_comparisons]

lemma length_pos_of_ne {l : List Segment} (h : l ≠ []) : 0 < l.length :=
  List.length_pos.mpr h

lemma listModify_eq_nil {α : Type} (l : List α) (i : ℕ) (f : α → α) :
    listModify l i f = [] ↔ l = [] := by
  cases l with
  | nil => simp [listModify]
  | cons a rest => cases i <;> simp [listModify]

lemma start_proj (t : Timer) (n : ℚ) (hg : t.phase = .NotRunning) :
    (t.start n).phase = .Running
    ∧ (t.start n).current_split_index = some 0
    ∧ (t.start n).run.segments = t.run.segments := by
  simp only [Timer.start]
  rw [if_pos hg]
  exact ⟨rfl, rfl, rfl⟩

lemma split_proj (t : Timer) (n : ℚ) (i : ℕ)
    (hg : t.phase = .Running
      ∧ (((t.current_time n).real_time.any fun r => decide (0 ≤ r)) = true))
    (hi : t.current_split_index = some i) :
    (t.split n).phase = (if t.run.len = i + 1 then TimerPhase.Ended else t.phase)
    ∧ (t.split n).current_split_index = some (i + 1)
    ∧ (t.split n).run.segments.length = t.run.segments.length := by
  simp only [Timer.split]
  rw [if_pos hg, hi]
  simp only [Option.getD_some]
  refine ⟨?_, ?_, ?_⟩
  · simp [apply_ite Timer.phase, Timer.save_state]
  · simp [apply_ite Timer.current_split_index, Timer.save_state]
  · simp [apply_ite (fun s : Timer => s.run.segments.length), Timer.save_state,
      listModify_length]

lemma skip_proj (t : Timer) (i : ℕ)
    (hg : (t.phase = .Running ∨ t.phase = .Paused)
      ∧ optNatLt t.current_split_index (checkedSub1 t.run.len) = true)
    (hi : t.current_split_index = some i) :
    (t.skip_split).phase = t.phase
    ∧ (t.skip_split).current_split_index = some (i + 1)
    ∧ (t.skip_split).run.segments.length = t.run.segments.length := by
  simp only [Timer.skip_split]
  rw [if_pos hg, hi]
  exact ⟨rfl, rfl, by simp [Timer.save_state, listModify_length]⟩

lemma undo_proj (t : Timer) (i : ℕ)
    (hg : t.phase ≠ .NotRunning
      ∧ ((t.current_split_index.any fun j => decide (0 < j)) = true))
    (hi : t.current_split_index = some i) :
    (t.undo_split).phase = (if t.phase = .Ended then TimerPhase.Running else t.phase)
    ∧ (t.undo_split).current_split_index = some (i - 1)
    ∧ (t.undo_split).run.segments.length = t.run.segments.length := by
  simp only [Timer.undo_split]
  rw [if_pos hg, hi]
  exact ⟨rfl, rfl, by simp [Timer.save_state, listModify_length]⟩

lemma pause_proj (t : Timer) (n : ℚ) (hg : t.phase = .Running) :
    (t.pause n).phase = .Paused
    ∧ (t.pause n).current_split_index = t.current_split_index
    ∧ (t.pause n).run = t.run := by
  simp only [Timer.pause]
  rw [if_pos hg]
  exact ⟨rfl, rfl, rfl⟩

lemma resume_proj (t : Timer) (n : ℚ) (hg : t.phase = .Paused) :
    (t.resume n).phase = .Running
    ∧ (t.resume n).current_split_index = t.current_split_index
    ∧ (t.resume n).run = t.run := by
  simp only [Timer.resume]
  rw [if_pos hg]
  exact ⟨rfl, rfl, rfl⟩

lemma inv_start (t : Timer) (n : ℚ) (h : Inv t) : Inv (t.start n) := by
  obtain ⟨hne, h1, h2, h3⟩ := h
  by_cases hp : t.phase = .NotRunning
  · obtain ⟨e1, e2, e3⟩ := start_proj t n hp
    have hlen : 0 < t.run.segments.length := length_pos_of_ne hne
    refine ⟨?_, ?_, ?_, ?_⟩
    · rw [e3]; exact hne
    · rw [e1, e2]; simp
    · rw [e1, e2]
      show _ ↔ _ = some ((t.start n).run.segments.length)
      rw [e3]
      simp
      omega
    · intro _
      refine ⟨0, e2, ?_⟩
      show 0 < (t.start n).run.segments.length
      rw [e3]; exact hlen
  · simpa [Timer.start, hp] using ⟨hne, h1, h2, h3⟩

lemma inv_split (t : Timer) (n : ℚ) (h : Inv t) : Inv (t.split n) := by
  obtain ⟨hne, h1, h2, h3⟩ := h
  by_cases hp : t.phase = .Running
      ∧ (((t.current_time n).real_time.any fun r => decide (0 ≤ r)) = true)
  · obtain ⟨i, hi, hilt⟩ := h3 (Or.inl hp.1)
    obtain ⟨e1, e2, e3⟩ := split_proj t n i hp hi
    have hL : t.run.len = t.run.segments.length := rfl
    refine ⟨?_, ?_, ?_, ?_⟩
    · intro hc
      have := congrArg List.length hc
      rw [e3] at this
      simp only [List.length_nil] at this
      exact hne (by rw [← List.length_eq_zero]; exact this)
    · rw [e1, e2]
      split <;> simp [hp.1]
    · rw [e1, e2]
      show _ ↔ _ = some ((t.split n).run.segments.length)
      rw [e3]
      split
      · next hc => simp only [Run.len] at hc; simp [hc]
      · next hc =>
        rw [hp.1]
        simp only [Run.len] at hc
        simp
        omega
    · rw [e1]
      intro hor
      refine ⟨i + 1, e2, ?_⟩
      show i + 1 < (t.split n).run.segments.length
      rw [e3]
      by_cases hc : t.run.len = i + 1
      · rw [if_pos hc] at hor
        rcases hor with hx | hx <;> simp at hx
      · omega
  · have hgoal : t.split n = t := by
      simp only [Timer.split]
      rw [if_neg hp]
    rw [hgoal]
    exact ⟨hne, h1, h2, h3⟩

lemma inv_skip_split (t : Timer) (h : Inv t) : Inv t.skip_split := by
  obtain ⟨hne, h1, h2, h3⟩ := h
  by_cases hp : (t.phase = .Running ∨ t.phase = .Paused)
      ∧ optNatLt t.current_split_index (checkedSub1 t.run.len) = true
  · obtain ⟨i, hi, hilt⟩ := h3 hp.1
    obtain ⟨e1, e2, e3⟩ := skip_proj t i hp hi
    have hL : t.run.len = t.run.segments.length := rfl
    have hsub : i + 1 < t.run.segments.length := by
      have hg := hp.2
      rw [hi] at hg
      unfold optNatLt checkedSub1 at hg
      rcases Nat.eq_zero_or_pos t.run.len with h0 | h0
      · rw [if_pos h0] at hg
        simp at hg
      · rw [if_neg (Nat.pos_iff_ne_zero.mp h0)] at hg
        have hg2 : i < t.run.len - 1 := by simpa using hg
        omega
    refine ⟨?_, ?_, ?_, ?_⟩
    · intro hc
      have := congrArg List.length hc
      rw [e3] at this
      simp only [List.length_nil] at this
      exact hne (by rw [← List.length_eq_zero]; exact this)
    · rw [e1, e2]
      rcases hp.1 with hr | hr <;> simp [hr]
    · rw [e1, e2]
      show _ ↔ _ = some ((t.skip_split).run.segments.length)
      rw [e3]
      rcases hp.1 with hr | hr <;> rw [hr] <;> simp <;> omega
    · intro _
      refine ⟨i + 1, e2, ?_⟩
      show i + 1 < (t.skip_split).run.segments.length
      rw [e3]
      exact hsub
  · have hgoal : t.skip_split = t := by
      simp only [Timer.skip_split]
      rw [if_neg hp]
    rw [hgoal]
    exact ⟨hne, h1, h2, h3⟩

lemma inv_undo_split (t : Timer) (h : Inv t) : Inv t.undo_split := by
  obtain ⟨hne, h1, h2, h3⟩ := h
  by_cases hp : t.phase ≠ .NotRunning
      ∧ ((t.current_split_index.any fun j => decide (0 < j)) = true)
  · obtain ⟨i, hi, hipos⟩ : ∃ i, t.current_split_index = some i ∧ 0 < i := by
      cases hc : t.current_split_index with
      | none =>
        have := hp.2
        rw [hc] at this
        simp [Option.any] at this
      | some j =>
        refine ⟨j, rfl, ?_⟩
        have := hp.2
        rw [hc] at this
        simpa [Option.any] using this
    obtain ⟨e1, e2, e3⟩ := undo_proj t i hp hi
    have hL : t.run.len = t.run.segments.length := rfl
    have hile : i ≤ t.run.segments.length := by
      cases hph : t.phase with
      | NotRunning => exact absurd hph hp.1
      | Ended =>
        have he := h2.mp hph
        rw [hi] at he
        have : i = t.run.len := by simpa using he
        omega
      | Running =>
        obtain ⟨j, hj, hjlt⟩ := h3 (Or.inl hph)
        rw [hi] at hj
        have : i = j := by simpa using hj
        omega
      | Paused =>
        obtain ⟨j, hj, hjlt⟩ := h3 (Or.inr hph)
        rw [hi] at hj
        have : i = j := by simpa using hj
        omega
    refine ⟨?_, ?_, ?_, ?_⟩
    · intro hc
      have := congrArg List.length hc
      rw [e3] at this
      simp only [List.length_nil] at this
      exact hne (by rw [← List.length_eq_zero]; exact this)
    · rw [e1, e2]
      constructor
      · intro hc
        exfalso
        revert hc
        split
        · simp
        · exact hp.1
      · intro hc
        simp at hc
    · rw [e1, e2]
      show _ ↔ _ = some ((t.undo_split).run.segments.length)
      rw [e3]
      constructor
      · intro hc
        exfalso
        revert hc
        split
        · simp
        · next hnE => exact hnE
      · intro hc
        exfalso
        have : i - 1 = t.run.segments.length := by simpa using hc
        omega
    · intro _
      refine ⟨i - 1, e2, ?_⟩
      show i - 1 < (t.undo_split).run.segments.length
      rw [e3]
      omega
  · have hgoal : t.undo_split = t := by
      simp only [Timer.undo_split]
      rw [if_neg hp]
    rw [hgoal]
    exact ⟨hne, h1, h2, h3⟩

lemma reset_result (t : Timer) (u : Bool) (n : ℚ) (hp : t.phase ≠ .NotRunning) :
    (t.reset u n).phase = .NotRunning
    ∧ (t.reset u n).current_split_index = none
    ∧ (t.reset u n).run.segments.length = t.run.segments.length := by
  refine ⟨reset_phase t u n, ?_, ?_⟩
  · simp only [Timer.reset]
    rw [if_pos hp]
    rfl
  · simp only [Timer.reset]
    rw [if_pos hp]
    show ((t.reset_state u n).reset_splits).run.segments.length = _
    rw [len_reset_splits, len_reset_state]

lemma inv_of_cleared {t : Timer} (hph : t.phase = .NotRunning)
    (hcsi : t.current_split_index = none) (hne : t.run.segments ≠ []) : Inv t := by
  refine ⟨hne, ?_, ?_, ?_⟩
  · simp [hph, hcsi]
  · simp [hph, hcsi]
  · simp [hph]

lemma inv_reset (t : Timer) (u : Bool) (n : ℚ) (h : Inv t) : Inv (t.reset u n) := by
  obtain ⟨hne, h1, h2, h3⟩ := h
  by_cases hp : t.phase ≠ .NotRunning
  · obtain ⟨e1, e2, e3⟩ := reset_result t u n hp
    refine inv_of_cleared e1 e2 ?_
    intro hc
    have := congrArg List.length hc
    rw [e3] at this
    simp only [List.length_nil] at this
    exact hne (by rw [← List.length_eq_zero]; exact this)
  · rw [not_not] at hp
    rw [reset_of_notRunning u n hp]
    exact ⟨hne, h1, h2, h3⟩

lemma reset_pb_result (t : Timer) (n : ℚ) (hp : t.phase ≠ .NotRunning) :
    (t.reset_and_set_attempt_as_pb n).phase = .NotRunning
    ∧ (t.reset_and_set_attempt_as_pb n).current_split_index = none
    ∧ (t.reset_and_set_attempt_as_pb n).run.segments.length
        = t.run.segments.length := by
  simp only [Timer.reset_and_set_attempt_as_pb]
  rw [if_pos hp]
  refine ⟨rfl, rfl, ?_⟩
  show ((((t.reset_state true n).set_run_as_pb)).reset_splits).run.segments.length = _
  rw [len_reset_splits, len_set_run_as_pb, len_reset_state]

lemma inv_reset_pb (t : Timer) (n : ℚ) (h : Inv t) :
    Inv (t.reset_and_set_attempt_as_pb n) := by
  obtain ⟨hne, h1, h2, h3⟩ := h
  by_cases hp : t.phase ≠ .NotRunning
  · obtain ⟨e1, e2, e3⟩ := reset_pb_result t n hp
    refine inv_of_cleared e1 e2 ?_
    intro hc
    have := congrArg List.length hc
    rw [e3] at this
    simp only [List.length_nil] at this
    exact hne (by rw [← List.length_eq_zero]; exact this)
  · simp only [Timer.reset_and_set_attempt_as_pb]
    rw [if_neg hp]
    exact ⟨hne, h1, h2, h3⟩

lemma inv_pause (t : Timer) (n : ℚ) (h : Inv t) : Inv (t.pause n) := by
  obtain ⟨hne, h1, h2, h3⟩ := h
  by_cases hp : t.phase = .Running
  · obtain ⟨i, hi, hilt⟩ := h3 (Or.inl hp)
    obtain ⟨e1, e2, e3⟩ := pause_proj t n hp
    have hL : t.run.len = t.run.segments.length := rfl
    refine ⟨?_, ?_, ?_, ?_⟩
    · rw [e3]; exact hne
    · rw [e1, e2, hi]; simp
    · rw [e1, e2, hi]
      show _ ↔ _ = some ((t.pause n).run.len)
      rw [show (t.pause n).run.len = t.run.len from congrArg Run.len e3]
      simp
      omega
    · intro _
      refine ⟨i, by rw [e2, hi], ?_⟩
      show i < (t.pause n).run.len
      rw [show (t.pause n).run.len = t.run.len from congrArg Run.len e3]
      exact hilt
  · simpa [Timer.pause, hp] using ⟨hne, h1, h2, h3⟩

lemma inv_resume (t : Timer) (n : ℚ) (h : Inv t) : Inv (t.resume n) := by
  obtain ⟨hne, h1, h2, h3⟩ := h
  by_cases hp : t.phase = .Paused
  · obtain ⟨i, hi, hilt⟩ := h3 (Or.inr hp)
    obtain ⟨e1, e2, e3⟩ := resume_proj t n hp
    have hL : t.run.len = t.run.segments.length := rfl
    refine ⟨?_, ?_, ?_, ?_⟩
    · rw [e3]; exact hne
    · rw [e1, e2, hi]; simp
    · rw [e1, e2, hi]
      show _ ↔ _ = some ((t.resume n).run.len)
      rw [show (t.resume n).run.len = t.run.len from congrArg Run.len e3]
      simp
      omega
    · intro _
      refine ⟨i, by rw [e2, hi], ?_⟩
      show i < (t.resume n).run.len
      rw [show (t.resume n).run.len = t.run.len from congrArg Run.len e3]
      exact hilt
  · simpa [Timer.resume, hp] using ⟨hne, h1, h2, h3⟩

lemma inv_toggle_pause (t : Timer) (n : ℚ) (h : Inv t) : Inv (t.toggle_pause n) := by
  unfold Timer.toggle_pause
  cases hp : t.phase with
  | Running => exact inv_pause t n h
  | Paused => exact inv_resume t n h
  | NotRunning => exact h
  | Ended => exact h

lemma inv_toggle_pause_or_start (t : Timer) (n : ℚ) (h : Inv t) :
    Inv (t.toggle_pause_or_start n) := by
  unfold Timer.toggle_pause_or_start
  cases hp : t.phase with
  | Running => exact inv_pause t n h
  | Paused => exact inv_resume t n h
  | NotRunning => exact inv_start t n h
  | Ended => exact h

lemma inv_undo_all_pauses (t : Timer) (n : ℚ) (h : Inv t) : Inv (t.undo_all_pauses n) := by
  unfold Timer.undo_all_pauses
  cases hp : t.phase with
  | Paused =>
    obtain ⟨hne, h1, h2, h3⟩ := inv_resume t n h
    exact ⟨hne, h1, h2, h3⟩
  | Ended =>
    obtain ⟨hne, h1, h2, h3⟩ := h
    have hEsome : t.current_split_index = some t.run.len := h2.mp hp
    refine ⟨?_, ?_, ?_, ?_⟩
    · simpa [listModify_eq_nil] using hne
    · simp [hEsome]
    · simp [hEsome, Run.len, listModify_length]
    · simp
  | NotRunning =>
    obtain ⟨hne, h1, h2, h3⟩ := h
    exact ⟨hne, h1, h2, h3⟩
  | Running =>
    obtain ⟨hne, h1, h2, h3⟩ := h
    exact ⟨hne, h1, h2, h3⟩


/-- C2: in every state reachable by the mutating timer operations, the phase
is `NotRunning` exactly when there is no current split index, `Ended` exactly
when the index equals the segment count, and in `Running`/`Paused` the index is
strictly below the segment count. -/
theorem c2_phase_index_invariant (t : Timer) (h : Reachable t) :
    (t.phase = .NotRunning ↔ t.current_split_index = none)
    ∧ (t.phase = .Ended ↔ t.current_split_index = some t.run.len)
    ∧ ((t.phase = .Running ∨ t.phase = .Paused)
        → ∃ i, t.current_split_index = some i ∧ i < t.run.len) := by
  have hinv : Inv t := by
    induction h with
    | base r now hr =>
      exact ⟨hr, by simp [mkTimer], by simp [mkTimer], by simp [mkTimer]⟩
    | start t now _ ih => exact inv_start t now ih
    | split t now _ ih => exact inv_split t now ih
    | skip_split t _ ih => exact inv_skip_split t ih
    | undo_split t _ ih => exact inv_undo_split t ih
    | reset t u now _ ih => exact inv_reset t u now ih
    | reset_pb t now _ ih => exact inv_reset_pb t now ih
    | pause t now _ ih => exact inv_pause t now ih
    | resume t now _ ih => exact inv_resume t now ih
    | toggle_pause t now _ ih => exact inv_toggle_pause t now ih
    | toggle_pause_or_start t now _ ih => exact inv_toggle_pause_or_start t now ih
    | undo_all_pauses t now _ ih => exact inv_undo_all_pauses t now ih
  exact ⟨hinv.2.1, hinv.2.2.1, hinv.2.2.2⟩

/-- Witness for C2: the invariant instantiated at a concrete reachable state
(a freshly constructed two-segment timer after `start`). -/
theorem c2_witness :
    (((mkTimer runAB 0).start 1).phase = .NotRunning
        ↔ ((mkTimer runAB 0).start 1).current_split_index = none)
    ∧ (((mkTimer runAB 0).start 1).phase = .Ended
        ↔ ((mkTimer runAB 0).start 1).current_split_index
            = some ((mkTimer runAB 0).start 1).run.len)
    ∧ ((((mkTimer runAB 0).start 1).phase = .Running
          ∨ ((mkTimer runAB 0).start 1).phase = .Paused)
        → ∃ i, ((mkTimer runAB 0).start 1).current_split_index = some i
            ∧ i < ((mkTimer runAB 0).start 1).run.len) :=
  c2_phase_index_invariant _
    (Reachable.start _ 1 (Reachable.base runAB 0 (by decide)))

/-- Witness for C8: two rotations on the two-comparison run return to
"Personal Best". -/
theorem c8_witness :
    tRunning.current_comparison ∈ tRunning.run.comparisons
    ∧ tRunning.run.comparisons ≠ []
    ∧ (Timer.switch_to_next_comparison^[tRunning.run.comparisons.length]
        tRunning).current_comparison = tRunning.current_comparison :=
  ⟨by decide, by decide, c8_comparison_rotation tRunning (by decide) (by decide)⟩

lemma anchorInv_mono {t : Timer} {t₀ t₁ : ℚ} (h : AnchorInv t t₀) (hle : t₀ ≤ t₁) :
    AnchorInv t t₁ :=
  ⟨h.1, h.2.1, h.2.2.1, fun hp => le_trans (h.2.2.2 hp) (by linarith)⟩

lemma anchors_set_loading_times (t : Timer) (x n : ℚ) :
    (t.set_loading_times x n).start_time_with_offset = t.start_time_with_offset
    ∧ (t.set_loading_times x n).adjusted_start_time = t.adjusted_start_time
    ∧ (t.set_loading_times x n).start_time_with_offset_utc = t.start_time_with_offset_utc
    ∧ (t.set_loading_times x n).adjusted_start_time_utc = t.adjusted_start_time_utc
    ∧ (t.set_loading_times x n).time_paused_at = t.time_paused_at := by
  refine ⟨?_, ?_, ?_, ?_, ?_⟩ <;>
    simp [Timer.set_loading_times, apply_ite Timer.start_time_with_offset,
      apply_ite Timer.adjusted_start_time, apply_ite Timer.start_time_with_offset_utc,
      apply_ite Timer.adjusted_start_time_utc, apply_ite Timer.time_paused_at]

lemma anchors_resume_game_time (t : Timer) (n : ℚ) :
    (t.resume_game_time n).start_time_with_offset = t.start_time_with_offset
    ∧ (t.resume_game_time n).adjusted_start_time = t.adjusted_start_time
    ∧ (t.resume_game_time n).start_time_with_offset_utc = t.start_time_with_offset_utc
    ∧ (t.resume_game_time n).adjusted_start_time_utc = t.adjusted_start_time_utc
    ∧ (t.resume_game_time n).time_paused_at = t.time_paused_at := by
  refine ⟨?_, ?_, ?_, ?_, ?_⟩ <;>
    simp [Timer.resume_game_time, anchors_set_loading_times,
      apply_ite Timer.start_time_with_offset, apply_ite Timer.adjusted_start_time,
      apply_ite Timer.start_time_with_offset_utc, apply_ite Timer.adjusted_start_time_utc,
      apply_ite Timer.time_paused_at]

lemma anchors_update_pb_splits (t : Timer) :
    (t.update_pb_splits).start_time_with_offset = t.start_time_with_offset
    ∧ (t.update_pb_splits).adjusted_start_time = t.adjusted_start_time
    ∧ (t.update_pb_splits).start_time_with_offset_utc = t.start_time_with_offset_utc
    ∧ (t.update_pb_splits).adjusted_start_time_utc = t.adjusted_start_time_utc
    ∧ (t.update_pb_splits).time_paused_at = t.time_paused_at := by
  unfold Timer.update_pb_splits
  cases t.run.segments.getLast? with
  | none => exact ⟨rfl, rfl, rfl, rfl, rfl⟩
  | some last =>
    refine ⟨?_, ?_, ?_, ?_, ?_⟩ <;>
      simp [Timer.set_run_as_pb, apply_ite Timer.start_time_with_offset,
        apply_ite Timer.adjusted_start_time, apply_ite Timer.start_time_with_offset_utc,
        apply_ite Timer.adjusted_start_time_utc, apply_ite Timer.time_paused_at]

lemma anchors_update_segment_history (t : Timer) :
    (t.update_segment_history).start_time_with_offset = t.start_time_with_offset
    ∧ (t.update_segment_history).adjusted_start_time = t.adjusted_start_time
    ∧ (t.update_segment_history).start_time_with_offset_utc = t.start_time_with_offset_utc
    ∧ (t.update_segment_history).adjusted_start_time_utc = t.adjusted_start_time_utc
    ∧ (t.update_segment_history).time_paused_at = t.time_paused_at := by
  unfold Timer.update_segment_history
  cases t.current_split_index with
  | none => exact ⟨rfl, rfl, rfl, rfl, rfl⟩
  | some i => exact ⟨rfl, rfl, rfl, rfl, rfl⟩

lemma anchors_reset_state (t : Timer) (u : Bool) (n : ℚ) :
    (t.reset_state u n).start_time_with_offset = t.start_time_with_offset
    ∧ (t.reset_state u n).adjusted_start_time = t.adjusted_start_time
    ∧ (t.reset_state u n).start_time_with_offset_utc = t.start_time_with_offset_utc
    ∧ (t.reset_state u n).adjusted_start_time_utc = t.adjusted_start_time_utc
    ∧ (t.reset_state u n).time_paused_at = t.time_paused_at := by
  refine ⟨?_, ?_, ?_, ?_, ?_⟩ <;>
    simp [Timer.reset_state, Timer.update_attempt_history, Timer.update_best_segments,
      anchors_update_pb_splits, anchors_update_segment_history, anchors_resume_game_time,
      anchors_set_loading_times, apply_ite Timer.start_time_with_offset,
      apply_ite Timer.adjusted_start_time, apply_ite Timer.start_time_with_offset_utc,
      apply_ite Timer.adjusted_start_time_utc, apply_ite Timer.time_paused_at]

lemma anchor_base (r : Run) (now : ℚ) : AnchorInv (mkTimer r now) now := by
  refine ⟨le_refl _, rfl, rfl, ?_⟩
  intro hp
  simp [mkTimer] at hp

lemma anchor_start {t : Timer} {t₀ : ℚ} (h : AnchorInv t t₀) {n : ℚ} (hle : t₀ ≤ n) :
    AnchorInv (t.start n) n := by
  by_cases hg : t.phase = .NotRunning
  · have e : (t.start n).start_time_with_offset = n - t.run.offset
        ∧ (t.start n).adjusted_start_time = n - t.run.offset
        ∧ (t.start n).start_time_with_offset_utc = ⟨n - t.run.offset, true⟩
        ∧ (t.start n).adjusted_start_time_utc = ⟨n - t.run.offset, true⟩
        ∧ (t.start n).phase = .Running := by
      simp only [Timer.start]
      rw [if_pos hg]
      exact ⟨rfl, rfl, rfl, rfl, rfl⟩
    obtain ⟨e1, e2, e3, e4, e5⟩ := e
    refine ⟨by rw [e1, e2], by rw [e3, e1], by rw [e4, e2], ?_⟩
    intro hp
    rw [e5] at hp
    simp at hp
  · have e : t.start n = t := by simp [Timer.start, hg]
    rw [e]
    exact anchorInv_mono h hle

lemma current_time_real_running (t : Timer) (n : ℚ) (hg : t.phase = .Running) :
    (t.current_time n).real_time
      = some (if t.use_utc then n - t.adjusted_start_time_utc.time
          else n - t.adjusted_start_time) := by
  simp [Timer.current_time, hg, utcNow, apply_ite (Option.some (α := ℚ))]

lemma anchor_pause {t : Timer} {t₀ : ℚ} (h : AnchorInv t t₀) {n : ℚ} (hle : t₀ ≤ n) :
    AnchorInv (t.pause n) n := by
  by_cases hg : t.phase = .Running
  · obtain ⟨h1, h2, h3, _⟩ := h
    have e : (t.pause n).start_time_with_offset = t.start_time_with_offset
        ∧ (t.pause n).adjusted_start_time = t.adjusted_start_time
        ∧ (t.pause n).start_time_with_offset_utc = t.start_time_with_offset_utc
        ∧ (t.pause n).adjusted_start_time_utc = t.adjusted_start_time_utc
        ∧ (t.pause n).time_paused_at = ((t.current_time n).real_time).getD 0
        ∧ (t.pause n).phase = .Paused := by
      simp only [Timer.pause]
      rw [if_pos hg]
      exact ⟨rfl, rfl, rfl, rfl, rfl, rfl⟩
    obtain ⟨e1, e2, e3, e4, e5, e6⟩ := e
    have etpa : (t.pause n).time_paused_at = n - t.adjusted_start_time := by
      rw [e5, current_time_real_running t n hg]
      rw [Option.getD_some]
      split
      · rw [h3]
      · rfl
    refine ⟨by rw [e1, e2]; exact h1, by rw [e3, e1]; exact h2,
      by rw [e4, e2]; exact h3, ?_⟩
    intro _
    rw [etpa, e2]
  · have e : t.pause n = t := by simp [Timer.pause, hg]
    rw [e]
    exact anchorInv_mono h hle

lemma anchor_resume {t : Timer} {t₀ : ℚ} (h : AnchorInv t t₀) {n : ℚ} (hle : t₀ ≤ n) :
    AnchorInv (t.resume n) n := by
  by_cases hg : t.phase = .Paused
  · obtain ⟨h1, h2, h3, h4⟩ := h
    have htpa := h4 hg
    have e : (t.resume n).start_time_with_offset = t.start_time_with_offset
        ∧ (t.resume n).adjusted_start_time = n - t.time_paused_at
        ∧ (t.resume n).start_time_with_offset_utc = t.start_time_with_offset_utc
        ∧ (t.resume n).adjusted_start_time_utc = ⟨n - t.time_paused_at, true⟩
        ∧ (t.resume n).phase = .Running := by
      simp only [Timer.resume]
      rw [if_pos hg]
      exact ⟨rfl, rfl, rfl, rfl, rfl⟩
    obtain ⟨e1, e2, e3, e4, e5⟩ := e
    refine ⟨?_, by rw [e3, e1]; exact h2, by rw [e4, e2], ?_⟩
    · rw [e1, e2]
      have : t.start_time_with_offset ≤ t.adjusted_start_time := h1
      linarith
    · intro hp
      rw [e5] at hp
      simp at hp
  · have e : t.resume n = t := by simp [Timer.resume, hg]
    rw [e]
    exact anchorInv_mono h hle

lemma anchor_split {t : Timer} {t₀ : ℚ} (h : AnchorInv t t₀) {n : ℚ} (hle : t₀ ≤ n) :
    AnchorInv (t.split n) n := by
  by_cases hg : t.phase = .Running
      ∧ (((t.current_time n).real_time.any fun r => decide (0 ≤ r)) = true)
  · obtain ⟨h1, h2, h3, _⟩ := h
    have e : (t.split n).start_time_with_offset = t.start_time_with_offset
        ∧ (t.split n).adjusted_start_time = t.adjusted_start_time
        ∧ (t.split n).start_time_with_offset_utc = t.start_time_with_offset_utc
        ∧ (t.split n).adjusted_start_time_utc = t.adjusted_start_time_utc := by
      simp only [Timer.split]
      rw [if_pos hg]
      refine ⟨?_, ?_, ?_, ?_⟩ <;>
        simp [Timer.save_state, apply_ite Timer.start_time_with_offset,
          apply_ite Timer.adjusted_start_time, apply_ite Timer.start_time_with_offset_utc,
          apply_ite Timer.adjusted_start_time_utc]
    obtain ⟨e1, e2, e3, e4⟩ := e
    have ephase : (t.split n).phase = .Paused → False := by
      intro hp
      revert hp
      simp only [Timer.split]
      rw [if_pos hg]
      by_cases hE : t.run.len = t.current_split_index.getD 0 + 1 <;>
        simp [hE, Timer.save_state, hg.1]
    refine ⟨by rw [e1, e2]; exact h1, by rw [e3, e1]; exact h2,
      by rw [e4, e2]; exact h3, fun hp => absurd hp (fun hp' => ephase hp')⟩
  · have e : t.split n = t := by
      simp only [Timer.split]
      rw [if_neg hg]
    rw [e]
    exact anchorInv_mono h hle

lemma anchor_skip_split {t : Timer} {t₀ : ℚ} (h : AnchorInv t t₀) :
    AnchorInv t.skip_split t₀ := by
  by_cases hg : (t.phase = .Running ∨ t.phase = .Paused)
      ∧ optNatLt t.current_split_index (checkedSub1 t.run.len) = true
  · obtain ⟨h1, h2, h3, h4⟩ := h
    have e : t.skip_split.start_time_with_offset = t.start_time_with_offset
        ∧ t.skip_split.adjusted_start_time = t.adjusted_start_time
        ∧ t.skip_split.start_time_with_offset_utc = t.start_time_with_offset_utc
        ∧ t.skip_split.adjusted_start_time_utc = t.adjusted_start_time_utc
        ∧ t.skip_split.time_paused_at = t.time_paused_at
        ∧ t.skip_split.phase = t.phase := by
      simp only [Timer.skip_split]
      rw [if_pos hg]
      exact ⟨rfl, rfl, rfl, rfl, rfl, rfl⟩
    obtain ⟨e1, e2, e3, e4, e5, e6⟩ := e
    exact ⟨by rw [e1, e2]; exact h1, by rw [e3, e1]; exact h2,
      by rw [e4, e2]; exact h3, fun hp => by
        rw [e5, e2]
        exact h4 (by rw [← e6]; exact hp)⟩
  · have e : t.skip_split = t := by
      simp only [Timer.skip_split]
      rw [if_neg hg]
    rw [e]
    exact h

lemma anchor_undo_split {t : Timer} {t₀ : ℚ} (h : AnchorInv t t₀) :
    AnchorInv t.undo_split t₀ := by
  by_cases hg : t.phase ≠ .NotRunning
      ∧ ((t.current_split_index.any fun j => decide (0 < j)) = true)
  · obtain ⟨h1, h2, h3, h4⟩ := h
    have e : t.undo_split.start_time_with_offset = t.start_time_with_offset
        ∧ t.undo_split.adjusted_start_time = t.adjusted_start_time
        ∧ t.undo_split.start_time_with_offset_utc = t.start_time_with_offset_utc
        ∧ t.undo_split.adjusted_start_time_utc = t.adjusted_start_time_utc
        ∧ t.undo_split.time_paused_at = t.time_paused_at
        ∧ t.undo_split.phase
            = (if t.phase = .Ended then TimerPhase.Running else t.phase) := by
      simp only [Timer.undo_split]
      rw [if_pos hg]
      exact ⟨rfl, rfl, rfl, rfl, rfl, rfl⟩
    obtain ⟨e1, e2, e3, e4, e5, e6⟩ := e
    refine ⟨by rw [e1, e2]; exact h1, by rw [e3, e1]; exact h2,
      by rw [e4, e2]; exact h3, ?_⟩
    intro hp
    rw [e6] at hp
    rw [e5, e2]
    refine h4 ?_
    revert hp
    split
    · intro hp
      simp at hp
    · exact id
  · have e : t.undo_split = t := by
      simp only [Timer.undo_split]
      rw [if_neg hg]
    rw [e]
    exact h

lemma anchor_reset {t : Timer} {t₀ : ℚ} (h : AnchorInv t t₀) {u : Bool} {n : ℚ}
    (hle : t₀ ≤ n) : AnchorInv (t.reset u n) n := by
  by_cases hg : t.phase ≠ .NotRunning
  · obtain ⟨h1, h2, h3, _⟩ := h
    have e : (t.reset u n).start_time_with_offset = t.start_time_with_offset
        ∧ (t.reset u n).adjusted_start_time = t.adjusted_start_time
        ∧ (t.reset u n).start_time_with_offset_utc = t.start_time_with_offset_utc
        ∧ (t.reset u n).adjusted_start_time_utc = t.adjusted_start_time_utc := by
      simp only [Timer.reset]
      rw [if_pos hg]
      have ha := anchors_reset_state t u n
      exact ⟨ha.1, ha.2.1, ha.2.2.1, ha.2.2.2.1⟩
    obtain ⟨e1, e2, e3, e4⟩ := e
    refine ⟨by rw [e1, e2]; exact h1, by rw [e3, e1]; exact h2,
      by rw [e4, e2]; exact h3, ?_⟩
    intro hp
    rw [reset_phase] at hp
    simp at hp
  · rw [not_not] at hg
    rw [reset_of_notRunning u n hg]
    exact anchorInv_mono h hle

lemma reset_pb_phase (t : Timer) (n : ℚ) :
    (t.reset_and_set_attempt_as_pb n).phase = .NotRunning := by
  unfold Timer.reset_and_set_attempt_as_pb
  split
  · rfl
  · next hp => simpa using not_not.mp hp

lemma anchor_reset_pb {t : Timer} {t₀ : ℚ} (h : AnchorInv t t₀) {n : ℚ}
    (hle : t₀ ≤ n) : AnchorInv (t.reset_and_set_attempt_as_pb n) n := by
  by_cases hg : t.phase ≠ .NotRunning
  · obtain ⟨h1, h2, h3, _⟩ := h
    have e : (t.reset_and_set_attempt_as_pb n).start_time_with_offset
          = t.start_time_with_offset
        ∧ (t.reset_and_set_attempt_as_pb n).adjusted_start_time = t.adjusted_start_time
        ∧ (t.reset_and_set_attempt_as_pb n).start_time_with_offset_utc
            = t.start_time_with_offset_utc
        ∧ (t.reset_and_set_attempt_as_pb n).adjusted_start_time_utc
            = t.adjusted_start_time_utc := by
      simp only [Timer.reset_and_set_attempt_as_pb]
      rw [if_pos hg]
      have ha := anchors_reset_state t true n
      exact ⟨ha.1, ha.2.1, ha.2.2.1, ha.2.2.2.1⟩
    obtain ⟨e1, e2, e3, e4⟩ := e
    refine ⟨by rw [e1, e2]; exact h1, by rw [e3, e1]; exact h2,
      by rw [e4, e2]; exact h3, ?_⟩
    intro hp
    rw [reset_pb_phase] at hp
    simp at hp
  · simp only [Timer.reset_and_set_attempt_as_pb]
    rw [if_neg hg]
    exact anchorInv_mono h hle

lemma anchor_toggle_pause {t : Timer} {t₀ : ℚ} (h : AnchorInv t t₀) {n : ℚ}
    (hle : t₀ ≤ n) : AnchorInv (t.toggle_pause n) n := by
  unfold Timer.toggle_pause
  cases hp : t.phase with
  | Running => exact anchor_pause h hle
  | Paused => exact anchor_resume h hle
  | NotRunning => exact anchorInv_mono h hle
  | Ended => exact anchorInv_mono h hle

lemma anchor_toggle_pause_or_start {t : Timer} {t₀ : ℚ} (h : AnchorInv t t₀) {n : ℚ}
    (hle : t₀ ≤ n) : AnchorInv (t.toggle_pause_or_start n) n := by
  unfold Timer.toggle_pause_or_start
  cases hp : t.phase with
  | Running => exact anchor_pause h hle
  | Paused => exact anchor_resume h hle
  | NotRunning => exact anchor_start h hle
  | Ended => exact anchorInv_mono h hle

lemma undo_all_adjusted (t : Timer) (n : ℚ) :
    (t.undo_all_pauses n).adjusted_start_time
      = (t.undo_all_pauses n).start_time_with_offset :=
  rfl

lemma anchor_undo_all_pauses {t : Timer} {t₀ : ℚ} (h : AnchorInv t t₀) {n : ℚ}
    (hle : t₀ ≤ n) : AnchorInv (t.undo_all_pauses n) n := by
  have hmid : AnchorInv
      (match t.phase with
        | TimerPhase.Paused => t.resume n
        | TimerPhase.Ended =>
          { t with
            run :=
              { t.run with
                segments :=
                  listModify t.run.segments (t.run.segments.length - 1) fun s =>
                    { s with
                      split_time :=
                        s.split_time.add
                          ⟨some ((t.get_pause_time n).getD 0),
                           some ((t.get_pause_time n).getD 0)⟩ } } }
        | _ => t) n := by
    cases hp : t.phase with
    | Paused => exact anchor_resume h hle
    | Ended =>
      refine anchorInv_mono ⟨h.1, h.2.1, h.2.2.1, ?_⟩ hle
      intro hp
      have hp' : TimerPhase.Ended = TimerPhase.Paused := hp
      simp at hp'
    | NotRunning => exact anchorInv_mono h hle
    | Running => exact anchorInv_mono h hle
  obtain ⟨m1, m2, m3, _⟩ := hmid
  refine ⟨le_refl _, ?_, ?_, ?_⟩
  · show (t.undo_all_pauses n).start_time_with_offset_utc.time
        = (t.undo_all_pauses n).start_time_with_offset
    unfold Timer.undo_all_pauses
    exact m2
  · show (t.undo_all_pauses n).adjusted_start_time_utc.time
        = (t.undo_all_pauses n).adjusted_start_time
    unfold Timer.undo_all_pauses
    exact m2
  · intro hp
    exfalso
    revert hp
    unfold Timer.undo_all_pauses
    cases hph : t.phase with
    | Paused =>
      intro hp
      have hp' : (t.resume n).phase = .Paused := hp
      have hr : (t.resume n).phase = .Running := by
        simp only [Timer.resume]
        rw [if_pos hph]
        rfl
      rw [hr] at hp'
      simp at hp'
    | Ended =>
      intro hp
      have hp' : TimerPhase.Ended = TimerPhase.Paused := hp
      simp at hp'
    | NotRunning =>
      intro hp
      have hp' : t.phase = TimerPhase.Paused := hp
      rw [hph] at hp'
      simp at hp'
    | Running =>
      intro hp
      have hp' : t.phase = TimerPhase.Paused := hp
      rw [hph] at hp'
      simp at hp'

lemma reachAt_anchorInv {t : Timer} {t₀ : ℚ} (h : ReachAt t t₀) : AnchorInv t t₀ := by
  induction h with
  | base r now hr => exact anchor_base r now
  | start t t₀ now _ hle ih => exact anchor_start ih hle
  | split t t₀ now _ hle ih => exact anchor_split ih hle
  | skip_split t t₀ _ ih => exact anchor_skip_split ih
  | undo_split t t₀ _ ih => exact anchor_undo_split ih
  | reset t t₀ u now _ hle ih => exact anchor_reset ih hle
  | reset_pb t t₀ now _ hle ih => exact anchor_reset_pb ih hle
  | pause t t₀ now _ hle ih => exact anchor_pause ih hle
  | resume t t₀ now _ hle ih => exact anchor_resume ih hle
  | toggle_pause t t₀ now _ hle ih => exact anchor_toggle_pause ih hle
  | toggle_pause_or_start t t₀ now _ hle ih => exact anchor_toggle_pause_or_start ih hle
  | undo_all_pauses t t₀ now _ hle ih => exact anchor_undo_all_pauses ih hle

/-- C7: in every reachable state (clock samples nondecreasing),
`start_time_with_offset ≤ adjusted_start_time`; moreover `start` (from
`NotRunning`) makes them equal, `resume` (from `Paused`) can only move the
adjusted start time forward, and `undo_all_pauses` collapses it back onto
`start_time_with_offset`. -/
theorem c7_adjusted_start_time (t : Timer) (t₀ now : ℚ) (h : ReachAt t t₀)
    (hle : t₀ ≤ now) :
    t.start_time_with_offset ≤ t.adjusted_start_time
    ∧ (t.phase = .NotRunning
        → (t.start now).adjusted_start_time = (t.start now).start_time_with_offset)
    ∧ (t.phase = .Paused
        → t.adjusted_start_time ≤ (t.resume now).adjusted_start_time)
    ∧ ((t.undo_all_pauses now).adjusted_start_time
        = (t.undo_all_pauses now).start_time_with_offset) := by
  obtain ⟨h1, h2, h3, h4⟩ := reachAt_anchorInv h
  refine ⟨h1, ?_, ?_, undo_all_adjusted t now⟩
  · intro hg
    simp only [Timer.start]
    rw [if_pos hg]
    rfl
  · intro hg
    have htpa := h4 hg
    have e : (t.resume now).adjusted_start_time = now - t.time_paused_at := by
      simp only [Timer.resume]
      rw [if_pos hg]
      rfl
    rw [e]
    linarith

/-- Witness for C7: the invariant instantiated on a freshly built timer at
instant 0, observed at instant 1. -/
theorem c7_witness :
    (0 : ℚ) ≤ 1
    ∧ ((mkTimer runAB 0).start_time_with_offset ≤ (mkTimer runAB 0).adjusted_start_time
    ∧ ((mkTimer runAB 0).phase = .NotRunning
        → ((mkTimer runAB 0).start 1).adjusted_start_time
            = ((mkTimer runAB 0).start 1).start_time_with_offset)
    ∧ ((mkTimer runAB 0).phase = .Paused
        → (mkTimer runAB 0).adjusted_start_time
            ≤ ((mkTimer runAB 0).resume 1).adjusted_start_time)
    ∧ (((mkTimer runAB 0).undo_all_pauses 1).adjusted_start_time
        = ((mkTimer runAB 0).undo_all_pauses 1).start_time_with_offset)) :=
  ⟨by norm_num,
   c7_adjusted_start_time (mkTimer runAB 0) 0 1
     (ReachAt.base runAB 0 (by decide)) (by norm_num)⟩

end LiveSplit
